import Mathlib

/-!
# Procedural terrain mesh generation

A shallow embedding of `src/drawables/terrain_triangle_strip.hpp` and
`src/drawables/terrain_triangles.hpp`, and theorems about the index
topology, the normal-candidate bounds predicates, the height-map
normalisation and the colour classifier.

Conventions of the embedding.

* `grid_size` is an `unsigned int`: a natural number `N` below `2 ^ 32`.
  Expressions of type `unsigned int` are natural numbers reduced modulo
  `2 ^ 32` (`wrap`); `grid_size - 1` is `pred32 N`.
* Variables of type `int` that are only counted upwards from `0` (`x`, `z`,
  `index`, `va_index`) are natural numbers; the theorems that quantify over
  the grid size assume `N * N < 2 ^ 31`, the range in which none of these
  counters overflows.
* `int` variables that can be negative (the neighbour indices of the strip
  normal estimator) are integers, converted by `toInt32`.
* `std::vector` is a `List`; `push_back` appends at the end.
* `float` and `double` values are exact rationals.
-/

namespace Terrain

/-! ## Machine arithmetic and loops -/

/-- The value of an `unsigned int` expression whose mathematical value is `n`. -/
def wrap (n : Nat) : Nat := n % 4294967296

/-- The `unsigned int` expression `grid_size - 1`. -/
def pred32 (N : Nat) : Nat := (N + 4294967295) % 4294967296

/-- The value of an `unsigned int` expression whose mathematical value is the integer `i`. -/
def toUInt32 (i : Int) : Int := i % 4294967296

/-- Conversion of an integer value to a 32 bit `int` (two's complement). -/
def toInt32 (i : Int) : Int := (i + 2147483648) % 4294967296 - 2147483648

/-- The loop `for (i = 0; i < bound; i++) body`, threading the state `s`. -/
def forUp {σ : Type} (bound : Nat) (body : Nat → σ → σ) (s : σ) : σ :=
  (List.range bound).foldl (fun acc i => body i acc) s

/-- The loop `for (z = start; z > 0; z--) body`, threading the state `s`. -/
def forDown {σ : Type} (body : Nat → σ → σ) : Nat → σ → σ
  | 0, s => s
  | z + 1, s => forDown body z (body (z + 1) s)

/-- The call `v.push_back(e)`. -/
def push_back {α : Type} (v : List α) (e : α) : List α := v ++ [e]

/-! ## Strip scheme: index construction
`TerrainTriangleStrip::generate_terrain`, lines 125-139. -/

/-- Body of the even-row loop: two `push_back` calls. -/
def strip_even_body (N x z : Nat) (indices : List Nat) : List Nat :=
  push_back (push_back indices (wrap (z + x * N))) (wrap (z + (x + 1) * N))

/-- Body of the odd-row loop: two `push_back` calls. `z` is an `unsigned
int`, so `z - 1 + x * grid_size` is `z + (2 ^ 32 - 1) + x * grid_size` modulo
`2 ^ 32`. -/
def strip_odd_body (N x z : Nat) (indices : List Nat) : List Nat :=
  push_back (push_back indices (wrap (z + (x + 1) * N))) (wrap (z + 4294967295 + x * N))

/-- Body of the loop over the rows `x`. -/
def strip_row (N x : Nat) (indices : List Nat) : List Nat :=
  if x % 2 = 0 then
    forUp N (strip_even_body N x) indices
  else
    forDown (strip_odd_body N x) (pred32 N) indices

/-- The vector `indices` built by `TerrainTriangleStrip::generate_terrain`. -/
def strip_indices (N : Nat) : List Nat :=
  forUp (pred32 N) (strip_row N) []

/-- The third component of the tuple returned by
`TerrainTriangleStrip::generate_terrain`: `indices.size()` as `unsigned int`. -/
def strip_draw_count (N : Nat) : Nat := wrap (strip_indices N).length

/-! ## Discrete-triangle scheme: index construction
`TerrainTriangles::generate_terrain`, lines 104-123. -/

/-- State of the vertex loop that matters for the topology: the cursor
`index` and the vector `indices`. -/
structure IndexState where
  index : Nat
  indices : List Nat
deriving DecidableEq, Repr

/-- Body of the inner loop for the cell `(x, z)`: the six `push_back` calls
under the guard `x < grid_size - 1 && z < grid_size - 1`, then `index++`. -/
def triangles_cell (N x z : Nat) (s : IndexState) : IndexState :=
  let pushed :=
    if x < pred32 N ∧ z < pred32 N then
      push_back (push_back (push_back (push_back (push_back (push_back s.indices
        (wrap s.index)) (wrap (s.index + N + 1))) (wrap (s.index + N)))
        (wrap (s.index + N + 1))) (wrap s.index)) (wrap (s.index + 1))
    else s.indices
  { index := s.index + 1, indices := pushed }

/-- The vertex loop of `TerrainTriangles::generate_terrain`, lines 104-123. -/
def triangles_vertex_loop (N : Nat) : IndexState :=
  forUp N (fun x s => forUp N (triangles_cell N x) s) { index := 0, indices := [] }

/-- The vector `indices` built by `TerrainTriangles::generate_terrain`. -/
def triangles_indices (N : Nat) : List Nat := (triangles_vertex_loop N).indices

/-- The six indices of the quad at cursor `idx`, as the spec lists them:
triangle A `(idx, idx+N+1, idx+N)`, triangle B `(idx+N+1, idx, idx+1)`. -/
def quad_indices (N idx : Nat) : List Nat :=
  [idx, idx + N + 1, idx + N, idx + N + 1, idx, idx + 1]

/-- The index sequence the spec describes: the quads of the cells `(x, z)`,
`x < N - 1` and `z < N - 1`, with `x` outer and `z` inner. -/
def triangles_indices_spec (N : Nat) : List Nat :=
  (List.range (N - 1)).flatMap fun x =>
    (List.range (N - 1)).flatMap fun z => quad_indices N (x * N + z)

/-! ## Strip scheme: candidate triangles of the normal estimator
`TerrainTriangleStrip::generate_terrain`, lines 161-327. -/

/-- An expression of type `unsigned int` with mathematical value `i`, stored
in a variable of type `int`. -/
def storeInt (i : Int) : Int := toInt32 (toUInt32 i)

/-- An `int` pushed into the `std::vector<unsigned int>` `normal_indices`. -/
def asIndex (i : Int) : Nat := (toUInt32 i).toNat

/-- The `int` variables declared at the top of the loop body for the cell `(x, z)`. -/
structure Neighbours where
  current_row_start : Int
  next_row_start : Int
  next_next_row_start : Int
  prev_row_start : Int
  current_vertex : Int
  vertex_left_adjacent : Int
  vertex_right_adjacent : Int
  vertex_top_adjacent : Int
  vertex_top_left_adjacent : Int
  vertex_top_right_adjacent : Int
  vertex_bottom_adjacent : Int
  vertex_bottom_left_adjacent : Int
  vertex_bottom_right_adjacent : Int
deriving DecidableEq, Repr

/-- Lines 165-178: the row starts and the neighbour indices of the cell `(x, z)`. -/
def neighbours (N x z : Nat) : Neighbours :=
  let grid_size : Int := N
  let current_vertex : Int := storeInt (x * grid_size + z)
  { current_row_start := storeInt (x * grid_size)
    next_row_start := storeInt ((x + 1) * grid_size)
    next_next_row_start := storeInt ((x + 2) * grid_size)
    prev_row_start := storeInt ((x - 1) * grid_size)
    current_vertex := current_vertex
    vertex_left_adjacent := current_vertex - 1
    vertex_right_adjacent := current_vertex + 1
    vertex_top_adjacent := storeInt (current_vertex + grid_size)
    vertex_top_left_adjacent := storeInt (current_vertex + grid_size - 1)
    vertex_top_right_adjacent := storeInt (current_vertex + grid_size + 1)
    vertex_bottom_adjacent := storeInt (current_vertex - grid_size)
    vertex_bottom_left_adjacent := storeInt (current_vertex - grid_size - 1)
    vertex_bottom_right_adjacent := storeInt (current_vertex - grid_size + 1) }

/-- The comparison `v < linear_grid_size` of an `int` with the `unsigned int`
`grid_size * grid_size`: both sides are converted to `unsigned int`. -/
def lt_linear (N : Nat) (v : Int) : Prop := toUInt32 v < toUInt32 ((N : Int) * N)

instance (N : Nat) (v : Int) : Decidable (lt_linear N v) := by
  unfold lt_linear; infer_instance

/-- The vector `normal_indices` and the counter `num_triangles`. -/
structure NormalState where
  normal_indices : List Nat
  num_triangles : Nat
deriving DecidableEq, Repr

/-- One guarded block: when the bounds predicate holds, push the three
vertices of the candidate triangle and count it. -/
def candidate (guard : Prop) [Decidable guard] (va vb vc : Int) (s : NormalState) :
    NormalState :=
  if guard then
    { normal_indices :=
        push_back (push_back (push_back s.normal_indices (asIndex va)) (asIndex vb)) (asIndex vc)
      num_triangles := s.num_triangles + 1 }
  else s

/-- Lines 183-249: the six guarded candidates of a cell in an odd row. -/
def odd_row_candidates (N : Nat) (v : Neighbours) : NormalState :=
  let s : NormalState := { normal_indices := [], num_triangles := 0 }
  -- top left
  let s := candidate (v.vertex_left_adjacent ≥ 0 ∧ v.vertex_left_adjacent ≥ v.current_row_start
      ∧ lt_linear N v.vertex_top_adjacent)
    v.current_vertex v.vertex_top_adjacent v.vertex_left_adjacent s
  -- bottom left
  let s := candidate (v.vertex_bottom_adjacent ≥ 0 ∧ v.vertex_left_adjacent ≥ 0
      ∧ v.vertex_left_adjacent ≥ v.current_row_start)
    v.current_vertex v.vertex_left_adjacent v.vertex_bottom_adjacent s
  let s := candidate (v.vertex_bottom_adjacent ≥ 0 ∧ v.vertex_bottom_right_adjacent ≥ 0
      ∧ v.vertex_bottom_right_adjacent < v.current_row_start)
    v.current_vertex v.vertex_bottom_adjacent v.vertex_bottom_right_adjacent s
  let s := candidate (v.vertex_bottom_right_adjacent ≥ 0
      ∧ v.vertex_bottom_right_adjacent < v.current_row_start
      ∧ v.vertex_right_adjacent < v.next_row_start)
    v.current_vertex v.vertex_bottom_right_adjacent v.vertex_right_adjacent s
  let s := candidate (v.vertex_right_adjacent < v.next_row_start
      ∧ lt_linear N v.vertex_top_right_adjacent
      ∧ v.vertex_top_right_adjacent < v.next_next_row_start)
    v.current_vertex v.vertex_right_adjacent v.vertex_top_right_adjacent s
  let s := candidate (lt_linear N v.vertex_top_adjacent
      ∧ lt_linear N v.vertex_top_right_adjacent
      ∧ v.vertex_top_right_adjacent < v.next_next_row_start)
    v.current_vertex v.vertex_top_right_adjacent v.vertex_top_adjacent s
  s

/-- Lines 253-320: the six guarded candidates of a cell in an even row. -/
def even_row_candidates (N : Nat) (v : Neighbours) : NormalState :=
  let s : NormalState := { normal_indices := [], num_triangles := 0 }
  -- left top
  let s := candidate (lt_linear N v.vertex_top_adjacent
      ∧ v.vertex_top_left_adjacent ≥ v.next_row_start
      ∧ v.vertex_top_left_adjacent < v.next_next_row_start)
    v.current_vertex v.vertex_top_adjacent v.vertex_top_left_adjacent s
  -- left upper middle
  let s := candidate (v.vertex_left_adjacent ≥ v.current_row_start
      ∧ v.vertex_top_left_adjacent ≥ v.next_row_start
      ∧ v.vertex_top_left_adjacent < v.next_next_row_start)
    v.current_vertex v.vertex_top_left_adjacent v.vertex_left_adjacent s
  -- left lower middle
  let s := candidate (v.vertex_left_adjacent ≥ v.current_row_start
      ∧ v.vertex_bottom_left_adjacent ≥ 0
      ∧ v.vertex_bottom_left_adjacent > v.prev_row_start)
    v.current_vertex v.vertex_left_adjacent v.vertex_bottom_left_adjacent s
  -- left bottom
  let s := candidate (v.vertex_bottom_left_adjacent ≥ 0
      ∧ v.vertex_bottom_left_adjacent > v.prev_row_start
      ∧ v.vertex_bottom_adjacent ≥ 0)
    v.current_vertex v.vertex_bottom_left_adjacent v.vertex_bottom_adjacent s
  -- right top
  let s := candidate (v.vertex_right_adjacent < v.next_row_start
      ∧ lt_linear N v.vertex_top_adjacent)
    v.current_vertex v.vertex_right_adjacent v.vertex_top_adjacent s
  -- right bottom
  let s := candidate (v.vertex_bottom_adjacent ≥ 0
      ∧ v.vertex_right_adjacent < v.next_row_start)
    v.current_vertex v.vertex_bottom_adjacent v.vertex_right_adjacent s
  s

/-- The contents of `normal_indices` and the value of `num_triangles` when
`calculate_normal` is called for the cell `(x, z)`. -/
def strip_normal_candidates (N x z : Nat) : NormalState :=
  if x % 2 ≠ 0 then odd_row_candidates N (neighbours N x z)
  else even_row_candidates N (neighbours N x z)

/-- The subscripts `normal_indices[...]` that `calculate_normal` uses to read
`terrain_attributes`, a vector of `grid_size * grid_size` vertices, are all
inside the vector. -/
def normal_reads_in_range (N x z : Nat) : Prop :=
  ∀ i ∈ (strip_normal_candidates N x z).normal_indices, i < wrap (N * N)

instance (N x z : Nat) : Decidable (normal_reads_in_range N x z) := by
  unfold normal_reads_in_range; infer_instance

/-! ## Height map normalisation
`generate_height_map` of both schemes. The octave loop that accumulates
`noise_height` for the cell `(y, x)` calls the external `Perlin::noise`; its
result is the parameter `noise_sum y x`. -/

/-- `std::numeric_limits<float>::min()`: the smallest positive normal `float`, `2 ^ (-126)`. -/
def FLT_MIN : ℚ := 1 / 2 ^ 126

/-- `std::numeric_limits<float>::max()`: the largest finite `float`, `(2 ^ 24 - 1) * 2 ^ 104`. -/
def FLT_MAX : ℚ := (2 ^ 24 - 1) * 2 ^ 104

/-- The lambda `inverse_lerp`. -/
def inverse_lerp (a b x : ℚ) : ℚ := (x - a) / (b - a)

/-- The local variables of `generate_height_map` that the loops update. -/
structure HeightState where
  max_noise_height : ℚ
  min_noise_height : ℚ
  index : Nat
  noise_map : List ℚ
deriving DecidableEq, Repr

/-- The `if (noise_height > max_noise_height) ... else if (noise_height <
min_noise_height) ...` statement. -/
def track_bounds (noise_height : ℚ) (s : HeightState) : HeightState :=
  if noise_height > s.max_noise_height then
    { s with max_noise_height := noise_height }
  else if noise_height < s.min_noise_height then
    { s with min_noise_height := noise_height }
  else s

/-- The state before the first loop: `noise_map` has `grid_size * grid_size`
zero entries, the bounds are `numeric_limits<float>::min()` and `max()`. -/
def height_init (N : Nat) : HeightState :=
  { max_noise_height := FLT_MIN
    min_noise_height := FLT_MAX
    index := 0
    noise_map := List.replicate (wrap (N * N)) 0 }

/-- `TerrainTriangles::generate_height_map`, lines 265-272: body of the first pass. -/
def triangles_height_cell (noise_height : ℚ) (s : HeightState) : HeightState :=
  let s := track_bounds noise_height s
  { s with noise_map := s.noise_map.set s.index noise_height, index := s.index + 1 }

/-- `TerrainTriangles::generate_height_map`, lines 283-284: body of the second pass. -/
def triangles_remap_cell (s : HeightState) : HeightState :=
  { s with
    noise_map := s.noise_map.set s.index
      (inverse_lerp s.min_noise_height s.max_noise_height (s.noise_map.getD s.index 0))
    index := s.index + 1 }

/-- `TerrainTriangles::generate_height_map`, lines 240-288. -/
def triangles_generate_height_map (N : Nat) (noise_sum : Nat → Nat → ℚ) : List ℚ :=
  let s := forUp N (fun y s => forUp N (fun x s => triangles_height_cell (noise_sum y x) s) s)
    (height_init N)
  let s := { s with index := 0 }
  let s := forUp N (fun _ s => forUp N (fun _ s => triangles_remap_cell s) s) s
  s.noise_map

/-- `TerrainTriangleStrip::generate_height_map`, lines 381-388: body of the single pass. -/
def strip_height_cell (noise_height : ℚ) (s : HeightState) : HeightState :=
  let s := track_bounds noise_height s
  { s with
    noise_map := s.noise_map.set s.index
      (inverse_lerp s.min_noise_height s.max_noise_height noise_height)
    index := s.index + 1 }

/-- `TerrainTriangleStrip::generate_height_map`, lines 352-392. -/
def strip_generate_height_map (N : Nat) (noise_sum : Nat → Nat → ℚ) : List ℚ :=
  (forUp N (fun y s => forUp N (fun x s => strip_height_cell (noise_sum y x) s) s)
    (height_init N)).noise_map

/-- Accumulated noise sums given row by row for a grid of size `N`: the
cell `(y, x)` gets the entry `y * N + x` of `sums`. -/
def noise_of_list (N : Nat) (sums : List ℚ) (y x : Nat) : ℚ := sums.getD (y * N + x) 0

/-! ## Colour classifier
`TerrainTriangleStrip::generate_terrain`, lines 93-114, and
`TerrainTriangles::generate_terrain`, lines 126-136 and 180-190. Both files
hold the same two tables and the same loop. -/

/-- An RGB colour, `glm::vec3`. -/
abbrev Color := ℚ × ℚ × ℚ

/-- The vector `heights`. -/
def heights : List ℚ := [3 / 10, 4 / 10, 45 / 100, 55 / 100, 6 / 10, 7 / 10, 9 / 10, 1]

/-- The vector `colors`. -/
def colors : List Color :=
  [(12 / 100, 29 / 100, 72 / 100),
   (13 / 100, 30 / 100, 76 / 100),
   (77 / 100, 80 / 100, 28 / 100),
   (20 / 100, 55 / 100, 0),
   (14 / 100, 36 / 100, 0),
   (30 / 100, 20 / 100, 17 / 100),
   (23 / 100, 18 / 100, 16 / 100),
   (1, 1, 1)]

/-- The initial value `glm::vec3(1.0f, 1.0f, 1.0f)` of `color`. -/
def white : Color := (1, 1, 1)

/-- The loop `for (auto &segment_color : colors)` over the remaining colours,
with the current `color_index` and the current value of `color`: on the
first `height <= heights[color_index]` it assigns and breaks. -/
def color_scan (height : ℚ) : List Color → Nat → Color → Color
  | [], _, color => color
  | segment_color :: rest, color_index, color =>
    if height ≤ heights.getD color_index 0 then segment_color
    else color_scan height rest (color_index + 1) color

/-- The colour lookup: `color_index = 0`, then the loop over `colors`,
starting from the current value of `color`. -/
def color_lookup (color : Color) (height : ℚ) : Color := color_scan height colors 0 color

/-- The colour of a strip vertex of height `height`: `color` starts as white. -/
def vertex_color (height : ℚ) : Color := color_lookup white height

/-- The classifier as the spec words it: scan the thresholds in order, pick
the colour paired with the first threshold that is at least the height, and
keep the default white if there is none. -/
def classify_spec (height : ℚ) : Color :=
  match (heights.zip colors).find? fun band => decide (height ≤ band.1) with
  | some band => band.2
  | none => white

/-! ## The run of `generate_terrain`: loops, subscripts and the index vector
The vertex attributes are left out; every subscript of a vector is kept as a
check against the size of the vector. -/

/-- The ways a run can go wrong. -/
inductive Fault where
  /-- `std::vector::at` throws `std::out_of_range`. -/
  | out_of_range
  /-- An unchecked `operator[]` outside the vector: undefined behaviour. -/
  | out_of_bounds
deriving DecidableEq, Repr

/-- The call `v.at(i)` on a vector of `size` elements. -/
def checked_at (size i : Nat) : Except Fault Unit :=
  if i < size then pure () else throw Fault.out_of_range

/-- The unchecked subscript `v[i]` on a vector of `size` elements. -/
def subscript (size i : Nat) : Except Fault Unit :=
  if i < size then pure () else throw Fault.out_of_bounds

/-- The loop `for (i = 0; i < bound; i++) body` when the body can fail. -/
def forUpM {σ : Type} (bound : Nat) (body : Nat → σ → Except Fault σ) (s : σ) :
    Except Fault σ :=
  (List.range bound).foldlM (fun acc i => body i acc) s

/-- Strip scheme, lines 91-123: the vertex loop reads `height_map[index]` and
pushes one vertex; the state is `index` and the size of `terrain_attributes`. -/
def strip_vertex_loop (N : Nat) : Except Fault (Nat × Nat) :=
  forUpM N (fun _ s => forUpM N (fun _ s => do
    subscript (wrap (N * N)) s.1
    pure (s.1 + 1, s.2 + 1)) s) (0, 0)

/-- Strip scheme, lines 144-159 and 251, 322: `calculate_normal` reads
`terrain_attributes[normal_indices[k]]` for the `3 * num_triangles` entries,
then the normal is stored in `terrain_attributes[va_index]`. With
`num_triangles = 0` the division is a `float` division by zero, which
produces a value and does not fail. -/
def strip_normal_cell (N vertices x z va_index : Nat) : Except Fault Nat := do
  let c := strip_normal_candidates N x z
  (c.normal_indices.take (3 * c.num_triangles)).forM (subscript vertices)
  subscript vertices va_index
  pure (va_index + 1)

/-- Strip scheme: the run of `generate_terrain`, returning `indices`. -/
def strip_generate_terrain (N : Nat) : Except Fault (List Nat) := do
  let (_, vertices) ← strip_vertex_loop N
  let indices := strip_indices N
  let _ ← forUpM N (fun x va => forUpM N (fun z va => strip_normal_cell N vertices x z va) va) 0
  pure indices

/-- Discrete-triangle scheme, lines 105-123: the vertex loop reads
`height_map[index]`, writes `terrain_attributes[index]` and pushes the
indices of the cell. Both vectors have `grid_size * grid_size` elements. -/
def triangles_vertex_loop_run (N : Nat) : Except Fault IndexState :=
  forUpM N (fun x s => forUpM N (fun z s => do
    subscript (wrap (N * N)) s.index
    subscript (wrap (N * N)) s.index
    pure (triangles_cell N x z s)) s) { index := 0, indices := [] }

/-- Discrete-triangle scheme, lines 146-213: the vector accesses of the
normal and colour pass for one cell, then `va_index++`. `index` is the value
the cursor of the vertex loop was left with. -/
def triangles_pass_cell (N index va_index : Nat) : Except Fault Nat := do
  let size := wrap (N * N)
  checked_at size va_index
  checked_at size (wrap (va_index + N + 1))
  checked_at size (wrap (va_index + N))
  checked_at size (wrap (va_index + N + 1))
  checked_at size va_index
  checked_at size (va_index + 1)
  subscript size index
  subscript size (wrap (va_index + N + 1))
  subscript size (wrap (va_index + N))
  subscript size (wrap (va_index + N + 1))
  subscript size va_index
  subscript size (va_index + 1)
  pure (va_index + 1)

/-- Discrete-triangle scheme: the run of `generate_terrain`, returning `indices`. -/
def triangles_generate_terrain (N : Nat) : Except Fault (List Nat) := do
  let s ← triangles_vertex_loop_run N
  let _ ← forUpM (pred32 N) (fun _ va =>
    forUpM (pred32 N) (fun _ va => triangles_pass_cell N s.index va) va) 0
  pure s.indices

/-! ## Vertex attributes
`struct Vertex` and the `glm` operations the code applies to `glm::vec3`. -/

/-- A `glm::vec3`. -/
abbrev Vec3 := ℚ × ℚ × ℚ

/-- The sum `a + b` of two `glm::vec3`. -/
def vadd (a b : Vec3) : Vec3 := (a.1 + b.1, a.2.1 + b.2.1, a.2.2 + b.2.2)

/-- The difference `a - b` of two `glm::vec3`. -/
def vsub (a b : Vec3) : Vec3 := (a.1 - b.1, a.2.1 - b.2.1, a.2.2 - b.2.2)

/-- The quotient `a / s` of a `glm::vec3` by a scalar. -/
def vdiv (a : Vec3) (s : ℚ) : Vec3 := (a.1 / s, a.2.1 / s, a.2.2 / s)

/-- The product `glm::cross(x, y)`. -/
def cross (x y : Vec3) : Vec3 :=
  (x.2.1 * y.2.2 - y.2.1 * x.2.2, x.2.2 * y.1 - y.2.2 * x.1, x.1 * y.2.1 - y.1 * x.2.1)

/-- The value of a normal attribute: a `glm::vec3` written as a literal, or
the result `glm::normalize(raw)`. The square root is not a rational
operation, so the normalisation is kept as a constructor. -/
inductive NormalAttr where
  | literal (v : Vec3)
  | normalized (raw : Vec3)
deriving DecidableEq, Repr

/-- The `struct Vertex`. -/
structure Vertex where
  position : Vec3
  normal : NormalAttr
  color : Color
deriving DecidableEq, Repr

/-- The unchecked subscript `v[i]` used to read an element. -/
def read {α : Type} (v : List α) (i : Nat) : Except Fault α :=
  match v[i]? with
  | some a => pure a
  | none => throw Fault.out_of_bounds

/-- The call `v.at(i)` used to read an element. -/
def read_at {α : Type} (v : List α) (i : Nat) : Except Fault α :=
  match v[i]? with
  | some a => pure a
  | none => throw Fault.out_of_range

/-- The assignment `terrain_attributes[i].normal = normal` (through a
subscript or through a reference obtained before). -/
def set_normal (terrain_attributes : List Vertex) (i : Nat) (normal : NormalAttr) :
    List Vertex :=
  match terrain_attributes[i]? with
  | some v => terrain_attributes.set i { v with normal := normal }
  | none => terrain_attributes

/-- The triangles of an index list drawn as `TRIANGLES`, and the triples
that `calculate_normal` reads from `normal_indices`: consecutive triples. -/
def chunk3 : List Nat → List (Nat × Nat × Nat)
  | a :: b :: c :: rest => (a, b, c) :: chunk3 rest
  | _ => []

/-! ## Strip scheme: vertices and normals
`TerrainTriangleStrip::generate_terrain`, lines 88-123 and 141-327. The
height map is the parameter `height_map`. -/

/-- Lines 93-121: the body of the vertex loop for the cell `(x, z)`; the
state is `index` and `terrain_attributes`. -/
def strip_vertex_body (height_map : List ℚ) (x z : Nat) (s : Nat × List Vertex) :
    Nat × List Vertex :=
  let color := white
  let height := height_map.getD s.1 0
  let color := color_lookup color height
  (s.1 + 1,
    push_back s.2 { position := ((x : ℚ), 0, (z : ℚ)),
                    normal := NormalAttr.literal (0, -1, 0),
                    color := color })

/-- Lines 88-123: the vector `terrain_attributes` after the vertex loop. -/
def strip_vertices (N : Nat) (height_map : List ℚ) : List Vertex :=
  (forUp N (fun x s => forUp N (strip_vertex_body height_map x) s) (0, [])).2

/-- Lines 144-159: the lambda `calculate_normal`. Division by
`num_triangles = 0` is a `float` division by zero in the code; here it is
the division of `ℚ`. -/
def calculate_normal (terrain_attributes : List Vertex) (normal_indices : List Nat)
    (num_triangles : Nat) : Except Fault NormalAttr := do
  let normal ← forUpM num_triangles (fun triangle normal => do
    let vertex_attribute_index := triangle * 3
    let ia ← read normal_indices vertex_attribute_index
    let va ← read terrain_attributes ia
    let ib ← read normal_indices (vertex_attribute_index + 1)
    let vb ← read terrain_attributes ib
    let ic ← read normal_indices (vertex_attribute_index + 2)
    let vc ← read terrain_attributes ic
    pure (vadd normal (cross (vsub vb.position va.position) (vsub vc.position va.position))))
    (0, 0, 0)
  pure (NormalAttr.normalized (vdiv normal (num_triangles : ℚ)))

/-- Lines 163-326: the body of the normal loop for the cell `(x, z)`; the
state is `va_index` and `terrain_attributes`. -/
def strip_normal_body (N x z : Nat) (s : Nat × List Vertex) :
    Except Fault (Nat × List Vertex) := do
  let c := strip_normal_candidates N x z
  let normal ← calculate_normal s.2 c.normal_indices c.num_triangles
  let _ ← read s.2 s.1
  pure (s.1 + 1, set_normal s.2 s.1 normal)

/-- The vector `terrain_attributes` returned by
`TerrainTriangleStrip::generate_terrain`. -/
def strip_terrain_attributes (N : Nat) (height_map : List ℚ) : Except Fault (List Vertex) := do
  let s ← forUpM N (fun x s => forUpM N (strip_normal_body N x) s)
    (0, strip_vertices N height_map)
  pure s.2

/-! ## Discrete-triangle scheme: vertices, normals and colours
`TerrainTriangles::generate_terrain`, lines 89-215. -/

/-- The lambda `curve_fit`. -/
def curve_fit (height : ℚ) : ℚ := height ^ 3 - 15 / 100 * height ^ 2 + 15 / 100 * height

/-- The constant `height_scale`. -/
def height_scale : ℚ := 135 / 10

/-- Lines 91-95: `terrain_attributes` as constructed, `linear_grid_size`
copies of one vertex. -/
def triangles_vertex_init (N : Nat) : List Vertex :=
  List.replicate (wrap (N * N))
    { position := (0, 0, 0), normal := NormalAttr.literal (0, 1, 0), color := (1, 1, 1) }

/-- Lines 107-109 and 121: the part of the body of the vertex loop that
writes the position of `terrain_attributes[index]`, and `index++`. -/
def triangles_position_body (height_map : List ℚ) (x z : Nat) (s : Nat × List Vertex) :
    Nat × List Vertex :=
  let height := curve_fit (height_map.getD s.1 0)
  (s.1 + 1,
    match s.2[s.1]? with
    | some v => s.2.set s.1 { v with position := ((x : ℚ), height * height_scale, (z : ℚ)) }
    | none => s.2)

/-- Lines 91-123: the vector `terrain_attributes` after the vertex loop. -/
def triangles_vertices (N : Nat) (height_map : List ℚ) : List Vertex :=
  (forUp N (fun x s => forUp N (triangles_position_body height_map x) s)
    (0, triangles_vertex_init N)).2

/-- Lines 146-164 and 213: the part of the body of the second loop that
recalculates the surface normals, and `va_index++`; the state is `va_index`
and `terrain_attributes`. -/
def triangles_normal_body (N : Nat) (s : Nat × List Vertex) :
    Except Fault (Nat × List Vertex) := do
  let va_index := s.1
  let triangle1_va ← read_at s.2 va_index
  let triangle1_vb ← read_at s.2 (wrap (va_index + N + 1))
  let triangle1_vc ← read_at s.2 (wrap (va_index + N))
  let triangle2_va ← read_at s.2 (wrap (va_index + N + 1))
  let triangle2_vb ← read_at s.2 va_index
  let triangle2_vc ← read_at s.2 (va_index + 1)
  let triangle1_normal := NormalAttr.normalized
    (cross (vsub triangle1_vb.position triangle1_va.position)
      (vsub triangle1_vc.position triangle1_va.position))
  let ta := set_normal s.2 va_index triangle1_normal
  let ta := set_normal ta (wrap (va_index + N + 1)) triangle1_normal
  let ta := set_normal ta (wrap (va_index + N)) triangle1_normal
  let triangle2_normal := NormalAttr.normalized
    (cross (vsub triangle2_vb.position triangle2_va.position)
      (vsub triangle2_vc.position triangle2_va.position))
  let ta := set_normal ta (wrap (va_index + N + 1)) triangle2_normal
  let ta := set_normal ta va_index triangle2_normal
  let ta := set_normal ta (va_index + 1) triangle2_normal
  pure (va_index + 1, ta)

/-- Lines 142-153 and 213: the cells `(x, z)` visited by the second loop,
each with the value of `va_index` it is processed with. -/
def triangles_pass_visits (N : Nat) : List (Nat × Nat × Nat) :=
  (forUp (pred32 N) (fun x s => forUp (pred32 N) (fun z s =>
    (s.1 + 1, push_back s.2 (x, z, s.1))) s) (0, [])).2

/-- Lines 146-153: the two triangles the second loop processes at `va_index`. -/
def pass_triangles (N va_index : Nat) : List (Nat × Nat × Nat) :=
  [(va_index, wrap (va_index + N + 1), wrap (va_index + N)),
   (wrap (va_index + N + 1), va_index, va_index + 1)]

/-- The lambda `height_centroid`. -/
def height_centroid (height1 height2 height3 : ℚ) : ℚ := (height1 + height2 + height3) / 3

/-- Lines 178-211: the colours written to the vertices of the first and of
the second triangle, from the six heights read in lines 169-176. The
variable `color` is initialised once, before the first lookup. -/
def triangle_colors (triangle1_va_height triangle1_vb_height triangle1_vc_height
    triangle2_va_height triangle2_vb_height triangle2_vc_height : ℚ) : Color × Color :=
  let triangle1_centroid_height :=
    height_centroid triangle1_va_height triangle1_vb_height triangle1_vc_height
  let color := white
  let color := color_lookup color triangle1_centroid_height
  let triangle1_color := color
  let triangle2_centroid_height :=
    height_centroid triangle2_va_height triangle2_vb_height triangle2_vc_height
  let color := color_lookup color triangle2_centroid_height
  (triangle1_color, color)

/-- The assignment `terrain_attributes[i].color = color` through a
reference obtained before. -/
def set_color (terrain_attributes : List Vertex) (i : Nat) (color : Color) : List Vertex :=
  match terrain_attributes[i]? with
  | some v => terrain_attributes.set i { v with color := color }
  | none => terrain_attributes

/-- Lines 146-213: the whole body of the second loop. The references and the
normals of lines 146-164 are `triangles_normal_body`, which also carries the
`va_index++` of line 213; then the six subscripts of `height_map` of lines
169-176, the first with the variable `index` of the vertex loop, the two
colour lookups, and the colour assignments of lines 192-194 and 209-211,
all with the value `va_index` has during the iteration. -/
def triangles_pass_body (N : Nat) (height_map : List ℚ) (index : Nat) (s : Nat × List Vertex) :
    Except Fault (Nat × List Vertex) := do
  let va_index := s.1
  let s1 ← triangles_normal_body N s
  let triangle1_va_height ← read height_map index
  let triangle1_vb_height ← read height_map (wrap (va_index + N + 1))
  let triangle1_vc_height ← read height_map (wrap (va_index + N))
  let triangle2_va_height ← read height_map (wrap (va_index + N + 1))
  let triangle2_vb_height ← read height_map va_index
  let triangle2_vc_height ← read height_map (va_index + 1)
  let color := triangle_colors triangle1_va_height triangle1_vb_height triangle1_vc_height
    triangle2_va_height triangle2_vb_height triangle2_vc_height
  let ta := set_color s1.2 va_index color.1
  let ta := set_color ta (wrap (va_index + N + 1)) color.1
  let ta := set_color ta (wrap (va_index + N)) color.1
  let ta := set_color ta (wrap (va_index + N + 1)) color.2
  let ta := set_color ta va_index color.2
  let ta := set_color ta (va_index + 1) color.2
  pure (s1.1, ta)

/-- The values taken by the counter of `for (z = start; z > 0; z--)`. -/
def down_range : Nat → List Nat
  | 0 => []
  | z + 1 => (z + 1) :: down_range z

/-- The entries pushed by one pass of the row loop of the strip scheme. -/
def strip_row_entries (N x : Nat) : List Nat :=
  if x % 2 = 0 then
    (List.range N).flatMap fun z => [wrap (z + x * N), wrap (z + (x + 1) * N)]
  else
    (down_range (pred32 N)).flatMap fun z =>
      [wrap (z + (x + 1) * N), wrap (z + 4294967295 + x * N)]

/-- The linear index of the grid cell in row `p.1` and column `p.2`. -/
def vertex_index (N : Nat) (p : Nat × Nat) : Nat := p.2 + p.1 * N

/-- The grid cells (row, column) visited by one pass of the row loop of the
strip scheme, when no index wraps. -/
def row_points (N x : Nat) : List (Nat × Nat) :=
  if x % 2 = 0 then
    (List.range N).flatMap fun z => [(x, z), (x + 1, z)]
  else
    (down_range (N - 1)).flatMap fun z => [(x + 1, z), (x, z - 1)]

/-- The grid cells visited by the strip, when no index wraps. -/
def strip_points (N : Nat) : List (Nat × Nat) :=
  (List.range (N - 1)).flatMap (row_points N)

/-- Number of entries of the strip before row `x`: `2 * N` for every even
row and `2 * (N - 1)` for every odd row below `x`. -/
def row_start (N x : Nat) : Nat := 2 * N * ((x + 1) / 2) + 2 * (N - 1) * (x / 2)

/-- The six entries pushed for one cell by the vertex loop of the
discrete-triangle scheme, at cursor `idx`. -/
def quad_entries (N idx : Nat) : List Nat :=
  [wrap idx, wrap (idx + N + 1), wrap (idx + N), wrap (idx + N + 1), wrap idx, wrap (idx + 1)]

/-- The entries pushed by the vertex loop of the discrete-triangle scheme
for the cell `(x, z)`. -/
def triangles_cell_entries (N x z : Nat) : List Nat :=
  if x < pred32 N ∧ z < pred32 N then quad_entries N (x * N + z) else []

/-- Number of entries pushed by the pass of the row loop for row `x`, when
no index wraps. -/
def row_len (N x : Nat) : Nat := if x % 2 = 0 then 2 * N else 2 * (N - 1)

/-- The grid cell at offset `j` of the block of row `x` of the strip. -/
def point_at (N x j : Nat) : Nat × Nat :=
  if x % 2 = 0 then
    if j % 2 = 0 then (x, j / 2) else (x + 1, j / 2)
  else
    if j % 2 = 0 then (x + 1, N - 1 - j / 2) else (x, N - 1 - j / 2 - 1)

/-! ## Strip scheme: triangles of the strip
A triangle strip draws one triangle for every three consecutive entries of
the index sequence. -/

/-- The grid point `(i div N, i mod N)` of the vertex index `i`. -/
def grid_point (N i : Nat) : Int × Int := (((i / N : Nat) : Int), ((i % N : Nat) : Int))

/-- The grid cell `pt` as a pair of integers. -/
def to_int_point (pt : Nat × Nat) : Int × Int := ((pt.1 : Int), (pt.2 : Int))

/-- Three grid points lie on one line: the cross product of the two edge
vectors from `a` vanishes. -/
def collinear (a b c : Int × Int) : Prop :=
  (b.1 - a.1) * (c.2 - a.2) = (c.1 - a.1) * (b.2 - a.2)

instance (a b c : Int × Int) : Decidable (collinear a b c) := by
  unfold collinear; infer_instance

/-- The triangle of the vertex indices `i`, `j`, `k` is not degenerate: its
three grid points are pairwise distinct and not collinear. -/
def proper_triangle (N i j k : Nat) : Prop :=
  grid_point N i ≠ grid_point N j ∧ grid_point N j ≠ grid_point N k ∧
    grid_point N i ≠ grid_point N k ∧
    ¬ collinear (grid_point N i) (grid_point N j) (grid_point N k)

instance (N i j k : Nat) : Decidable (proper_triangle N i j k) := by
  unfold proper_triangle; infer_instance

/-- The triple of entries at the positions `p`, `p + 1`, `p + 2` of the strip
joins the block of a row `x` to the block of row `x + 1` through a seam: it
holds the last two entries of an even row and the first entry of the next
row, or the last entry of an odd row and the first two of the next row. -/
def seam (N p : Nat) : Prop :=
  ∃ x, x + 1 < N - 1 ∧
    ((x % 2 = 0 ∧ p + 2 = row_start N (x + 1)) ∨ (x % 2 = 1 ∧ p + 1 = row_start N (x + 1)))

instance (N p : Nat) : Decidable (seam N p) :=
  decidable_of_iff
    (∃ x, x < N ∧ (x + 1 < N - 1 ∧
      ((x % 2 = 0 ∧ p + 2 = row_start N (x + 1)) ∨ (x % 2 = 1 ∧ p + 1 = row_start N (x + 1)))))
    ⟨fun ⟨x, _, h⟩ => ⟨x, h⟩, fun ⟨x, h⟩ => ⟨x, by omega, h⟩⟩

/-- The vertex pushed by the vertex loop of the strip scheme for the cell `(x, z)`. -/
def strip_vertex (N : Nat) (height_map : List ℚ) (x z : Nat) : Vertex :=
  { position := ((x : ℚ), 0, (z : ℚ))
    normal := NormalAttr.literal (0, -1, 0)
    color := color_lookup white (height_map.getD (x * N + z) 0) }

/-- The vertex of the cell `(x, z)` after the vertex loop of the discrete-triangle scheme. -/
def triangles_vertex (N : Nat) (height_map : List ℚ) (x z : Nat) : Vertex :=
  { position := ((x : ℚ), curve_fit (height_map.getD (x * N + z) 0) * height_scale, (z : ℚ))
    normal := NormalAttr.literal (0, 1, 0)
    color := (1, 1, 1) }

/-- The vertex that `terrain_attributes` is filled with at construction. -/
def initial_vertex : Vertex :=
  { position := (0, 0, 0), normal := NormalAttr.literal (0, 1, 0), color := (1, 1, 1) }

/-- The two triangles of the quad at cursor `idx`. -/
def quad_triangles (N idx : Nat) : List (Nat × Nat × Nat) :=
  [(idx, idx + N + 1, idx + N), (idx + N + 1, idx, idx + 1)]

/-- The three indices pushed for a candidate triangle. -/
def tri_list (t : Nat × Nat × Nat) : List Nat := [t.1, t.2.1, t.2.2]

/-- The state of `normal_indices` and `num_triangles` after the candidate
triangles `T` were accepted. -/
def tri_state (T : List (Nat × Nat × Nat)) : NormalState :=
  { normal_indices := T.flatMap tri_list, num_triangles := T.length }

/-- The candidate triangle `t`, if its bounds predicate `g` holds. -/
def accept (g : Prop) [Decidable g] (t : Nat × Nat × Nat) : List (Nat × Nat × Nat) :=
  if g then [t] else []

/-- The candidate triangles accepted for the cell `(x, z)` of an odd row,
with every bounds predicate reduced to a condition on `x`, `z` and `N`, and
every vertex written as the index of its cell. -/
def odd_triangles (N x z : Nat) : List (Nat × Nat × Nat) :=
  [] ++ accept (1 ≤ z ∧ x + 1 < N)
      (vertex_index N (x, z), vertex_index N (x + 1, z), vertex_index N (x, z - 1))
    ++ accept (1 ≤ x ∧ 1 ≤ z)
      (vertex_index N (x, z), vertex_index N (x, z - 1), vertex_index N (x - 1, z))
    ++ accept (1 ≤ x ∧ z + 1 < N)
      (vertex_index N (x, z), vertex_index N (x - 1, z), vertex_index N (x - 1, z + 1))
    ++ accept (1 ≤ x ∧ z + 1 < N)
      (vertex_index N (x, z), vertex_index N (x - 1, z + 1), vertex_index N (x, z + 1))
    ++ accept (z + 1 < N ∧ x + 1 < N)
      (vertex_index N (x, z), vertex_index N (x, z + 1), vertex_index N (x + 1, z + 1))
    ++ accept (x + 1 < N ∧ z + 1 < N)
      (vertex_index N (x, z), vertex_index N (x + 1, z + 1), vertex_index N (x + 1, z))

/-- The candidate triangles accepted for the cell `(x, z)` of an even row.
The second one, "left upper middle", is accepted in the last row too, where
the cell `(x + 1, z - 1)` is outside the grid. -/
def even_triangles (N x z : Nat) : List (Nat × Nat × Nat) :=
  [] ++ accept (x + 1 < N ∧ 1 ≤ z)
      (vertex_index N (x, z), vertex_index N (x + 1, z), vertex_index N (x + 1, z - 1))
    ++ accept (1 ≤ z)
      (vertex_index N (x, z), vertex_index N (x + 1, z - 1), vertex_index N (x, z - 1))
    ++ accept (1 ≤ x ∧ 2 ≤ z)
      (vertex_index N (x, z), vertex_index N (x, z - 1), vertex_index N (x - 1, z - 1))
    ++ accept (1 ≤ x ∧ 2 ≤ z)
      (vertex_index N (x, z), vertex_index N (x - 1, z - 1), vertex_index N (x - 1, z))
    ++ accept (z + 1 < N ∧ x + 1 < N)
      (vertex_index N (x, z), vertex_index N (x, z + 1), vertex_index N (x + 1, z))
    ++ accept (1 ≤ x ∧ z + 1 < N)
      (vertex_index N (x, z), vertex_index N (x - 1, z), vertex_index N (x, z + 1))

/-- The candidate triangles accepted for the cell `(x, z)`. -/
def cell_triangles (N x z : Nat) : List (Nat × Nat × Nat) :=
  if x % 2 ≠ 0 then odd_triangles N x z else even_triangles N x z

/-- A normal the second loop of the discrete-triangle scheme leaves on a
vertex: the placeholder `(0, 1, 0)` of the construction, or
`glm::normalize(raw)` of a vector with `raw.y ≠ 0`. -/
def written_normal (n : NormalAttr) : Prop :=
  n = NormalAttr.literal (0, 1, 0) ∨ ∃ raw : Vec3, n = NormalAttr.normalized raw ∧ raw.2.1 ≠ 0

/-- The invariant of the second loop on `terrain_attributes`: the positions
are those in `P`, and every normal is a `written_normal`. -/
def normals_invariant (P : List Vec3) (L : List Vertex) : Prop :=
  L.map Vertex.position = P ∧ ∀ v ∈ L, written_normal v.normal

/-- The table `heights` as the code holds it: the literals `0.3, 0.4, ...`
are of type `double`, and each denotes the binary64 number nearest to the
decimal, written here as an exact fraction. -/
def heights_binary64 : List ℚ :=
  [5404319552844595 / 2 ^ 54, 3602879701896397 / 2 ^ 53, 8106479329266893 / 2 ^ 54,
   2476979795053773 / 2 ^ 52, 5404319552844595 / 2 ^ 53, 3152519739159347 / 2 ^ 52,
   8106479329266893 / 2 ^ 53, 1]

/-- The loop `for (auto &segment_color : colors)` with the comparison
`height <= heights[color_index]` as the code evaluates it: the `float`
height is converted to `double`, which is exact, and compared with the
`double` threshold. -/
def color_scan_binary64 (height : ℚ) : List Color → Nat → Color → Color
  | [], _, color => color
  | segment_color :: rest, color_index, color =>
    if height ≤ heights_binary64.getD color_index 0 then segment_color
    else color_scan_binary64 height rest (color_index + 1) color

/-- The colour lookup with the `double` thresholds: `color_index = 0`, then
the loop over `colors`, starting from the current value of `color`. -/
def color_lookup_binary64 (color : Color) (height : ℚ) : Color :=
  color_scan_binary64 height colors 0 color

/-- The finite values of the type `float` (binary32): `m * 2 ^ e` with a
significand `|m| < 2 ^ 24` and an exponent `-149 ≤ e ≤ 104`. -/
def is_float (h : ℚ) : Prop :=
  ∃ m e : Int, |m| < 2 ^ 24 ∧ -149 ≤ e ∧ e ≤ 104 ∧ h = (m : ℚ) * (2 : ℚ) ^ e

/-! ## Lemmas on loops -/

theorem foldl_append_flatMap {ι α : Type} (f : ι → List α) (l : List ι) (s : List α) :
    l.foldl (fun acc i => acc ++ f i) s = s ++ l.flatMap f := by
  induction l generalizing s with
  | nil => simp
  | cons a t ih => simp [ih, List.append_assoc]

theorem forUp_append {α : Type} (f : Nat → List α) (n : Nat) (s : List α) :
    forUp n (fun i acc => acc ++ f i) s = s ++ (List.range n).flatMap f := by
  unfold forUp
  exact foldl_append_flatMap f _ s

theorem forDown_append {α : Type} (f : Nat → List α) (n : Nat) (s : List α) :
    forDown (fun z acc => acc ++ f z) n s = s ++ (down_range n).flatMap f := by
  induction n generalizing s with
  | zero => simp [forDown, down_range]
  | succ k ih => simp [forDown, down_range, ih, List.append_assoc]

theorem flatMap_congr_mem {ι α : Type} {f g : ι → List α} {l : List ι}
    (h : ∀ a ∈ l, f a = g a) : l.flatMap f = l.flatMap g := by
  induction l with
  | nil => rfl
  | cons a t ih =>
    simp only [List.flatMap_cons]
    rw [h a (List.mem_cons_self a t), ih (fun b hb => h b (List.mem_cons_of_mem a hb))]

theorem mem_down_range {n z : Nat} : z ∈ down_range n ↔ 1 ≤ z ∧ z ≤ n := by
  induction n with
  | zero => simp [down_range]; omega
  | succ k ih => simp [down_range, ih]; omega

theorem length_down_range (n : Nat) : (down_range n).length = n := by
  induction n with
  | zero => rfl
  | succ k ih => simp [down_range, ih]

theorem wrap_of_lt {n : Nat} (h : n < 4294967296) : wrap n = n := by
  unfold wrap; omega

theorem pred32_of_pos {N : Nat} (h1 : 1 ≤ N) (h2 : N < 4294967296) : pred32 N = N - 1 := by
  unfold pred32; omega

theorem lt_of_sq_lt {N : Nat} (h : N * N < 2147483648) : N < 46341 := by
  by_contra hc
  have h1 : 46341 ≤ N := by omega
  have := Nat.mul_le_mul h1 h1
  omega

/-! ## Strip scheme: structure of the index sequence -/

theorem strip_row_eq (N x : Nat) (s : List Nat) :
    strip_row N x s = s ++ strip_row_entries N x := by
  unfold strip_row strip_row_entries
  split
  · have : strip_even_body N x =
        fun z acc => acc ++ [wrap (z + x * N), wrap (z + (x + 1) * N)] := by
      funext z acc; simp [strip_even_body, push_back]
    rw [this, forUp_append]
  · have : strip_odd_body N x =
        fun z acc => acc ++ [wrap (z + (x + 1) * N), wrap (z + 4294967295 + x * N)] := by
      funext z acc; simp [strip_odd_body, push_back]
    rw [this, forDown_append]

theorem strip_indices_eq (N : Nat) :
    strip_indices N = (List.range (pred32 N)).flatMap (strip_row_entries N) := by
  have h : strip_row N = fun x acc => acc ++ strip_row_entries N x := by
    funext x acc; exact strip_row_eq N x acc
  show forUp (pred32 N) (strip_row N) [] = _
  rw [h, forUp_append, List.nil_append]

theorem cell_index_lt {N r c : Nat} (hr : r < N) (hc : c < N) : c + r * N < N * N := by
  have : (r + 1) * N ≤ N * N := Nat.mul_le_mul_right N hr
  have : (r + 1) * N = r * N + N := by ring
  omega

theorem mem_row_points {N x : Nat} {p : Nat × Nat} (hN : 2 ≤ N) (hx : x < N - 1)
    (hp : p ∈ row_points N x) : p.1 < N ∧ p.2 < N := by
  unfold row_points at hp
  split at hp
  · simp only [List.mem_flatMap, List.mem_range, List.mem_cons, List.mem_singleton,
      List.not_mem_nil, or_false] at hp
    obtain ⟨z, hz, rfl | rfl⟩ := hp <;> simp <;> omega
  · simp only [List.mem_flatMap, mem_down_range, List.mem_cons, List.mem_singleton,
      List.not_mem_nil, or_false] at hp
    obtain ⟨z, hz, rfl | rfl⟩ := hp <;> simp <;> omega

theorem strip_row_entries_eq {N x : Nat} (hN : 2 ≤ N) (hNN : N * N < 2147483648)
    (hx : x < N - 1) :
    strip_row_entries N x = (row_points N x).map (vertex_index N) := by
  have hlt := lt_of_sq_lt hNN
  have hpred : pred32 N = N - 1 := pred32_of_pos (by omega) (by omega)
  unfold strip_row_entries row_points
  split
  · rw [List.map_flatMap]
    apply flatMap_congr_mem
    intro z hz
    rw [List.mem_range] at hz
    have h1 := cell_index_lt (show x < N by omega) hz
    have h2 := cell_index_lt (show x + 1 < N by omega) hz
    simp [vertex_index, wrap_of_lt (show z + x * N < 4294967296 by omega),
      wrap_of_lt (show z + (x + 1) * N < 4294967296 by omega)]
  · rw [List.map_flatMap, hpred]
    apply flatMap_congr_mem
    intro z hz
    rw [mem_down_range] at hz
    have h1 := cell_index_lt (show x < N by omega) (show z - 1 < N by omega)
    have h2 := cell_index_lt (show x + 1 < N by omega) (show z < N by omega)
    have h3 : wrap (z + 4294967295 + x * N) = z - 1 + x * N := by
      unfold wrap; omega
    simp [vertex_index, h3, wrap_of_lt (show z + (x + 1) * N < 4294967296 by omega)]

theorem strip_indices_eq_points {N : Nat} (hN : 2 ≤ N) (hNN : N * N < 2147483648) :
    strip_indices N = (strip_points N).map (vertex_index N) := by
  have hlt := lt_of_sq_lt hNN
  rw [strip_indices_eq, pred32_of_pos (by omega) (by omega), strip_points, List.map_flatMap]
  apply flatMap_congr_mem
  intro x hx
  rw [List.mem_range] at hx
  exact strip_row_entries_eq hN hNN hx

theorem length_flatMap_pair {ι α : Type} (f g : ι → α) (l : List ι) :
    (l.flatMap fun z => [f z, g z]).length = 2 * l.length := by
  induction l with
  | nil => rfl
  | cons a t ih => simp [ih]; omega

theorem length_row_points (N x : Nat) :
    (row_points N x).length = if x % 2 = 0 then 2 * N else 2 * (N - 1) := by
  unfold row_points
  split
  · rw [length_flatMap_pair, List.length_range]
  · rw [length_flatMap_pair, length_down_range]

theorem row_start_succ (N x : Nat) :
    row_start N (x + 1) = row_start N x + if x % 2 = 0 then 2 * N else 2 * (N - 1) := by
  unfold row_start
  have h1 : (x + 1 + 1) / 2 = x / 2 + 1 := by omega
  split
  · have h2 : (x + 1) / 2 = x / 2 := by omega
    rw [h1, h2]; ring
  · have h2 : (x + 1) / 2 = x / 2 + 1 := by omega
    rw [h1, h2]; ring

theorem length_rows (N n : Nat) :
    ((List.range n).flatMap (row_points N)).length = row_start N n := by
  induction n with
  | zero => simp [row_start]
  | succ k ih =>
    rw [List.range_succ, List.flatMap_append, List.length_append, ih, List.flatMap_singleton,
      length_row_points, row_start_succ]

theorem row_start_last (N : Nat) (hN : 1 ≤ N) :
    row_start N (N - 1) + 2 * ((N - 1) / 2) = 2 * N * (N - 1) := by
  obtain ⟨m, rfl⟩ : ∃ m, N = m + 1 := ⟨N - 1, by omega⟩
  have h : (m + 1) / 2 + m / 2 = m := by omega
  have e : row_start (m + 1) (m + 1 - 1) + 2 * ((m + 1 - 1) / 2)
      = 2 * (m + 1) * ((m + 1) / 2 + m / 2) := by
    simp only [row_start, Nat.add_sub_cancel]; ring
  rw [e, h]; simp

theorem length_strip_indices {N : Nat} (hN : 2 ≤ N) (hNN : N * N < 2147483648) :
    (strip_indices N).length = row_start N (N - 1) := by
  rw [strip_indices_eq_points hN hNN, List.length_map, strip_points, length_rows]

/-! ## Discrete-triangle scheme: structure of the index sequence -/

theorem forUp_succ {σ : Type} (n : Nat) (body : Nat → σ → σ) (s : σ) :
    forUp (n + 1) body s = body n (forUp n body s) := by
  unfold forUp
  rw [List.range_succ, List.foldl_append]; rfl

theorem forUp_zero {σ : Type} (body : Nat → σ → σ) (s : σ) : forUp 0 body s = s := rfl

theorem triangles_cell_eq (N x z : Nat) (s : IndexState) :
    triangles_cell N x z s =
      { index := s.index + 1,
        indices := s.indices ++
          if x < pred32 N ∧ z < pred32 N then quad_entries N s.index else [] } := by
  unfold triangles_cell
  split <;> simp [push_back, quad_entries]

theorem triangles_inner (N x k b : Nat) (I : List Nat) :
    forUp k (triangles_cell N x) { index := b, indices := I } =
      { index := b + k,
        indices := I ++ (List.range k).flatMap fun z =>
          if x < pred32 N ∧ z < pred32 N then quad_entries N (b + z) else [] } := by
  induction k with
  | zero => simp [forUp_zero]
  | succ k ih =>
    rw [forUp_succ, ih, triangles_cell_eq, List.range_succ, List.flatMap_append,
      List.flatMap_singleton]
    simp [List.append_assoc, Nat.add_assoc]

theorem triangles_outer (N n : Nat) :
    forUp n (fun x s => forUp N (triangles_cell N x) s) { index := 0, indices := [] } =
      { index := n * N,
        indices := (List.range n).flatMap fun x =>
          (List.range N).flatMap fun z => triangles_cell_entries N x z } := by
  induction n with
  | zero => simp [forUp_zero]
  | succ n ih =>
    rw [forUp_succ, ih, triangles_inner, List.range_succ, List.flatMap_append,
      List.flatMap_singleton]
    simp only [triangles_cell_entries, IndexState.mk.injEq, and_true]
    ring

theorem triangles_indices_eq (N : Nat) :
    triangles_indices N = (List.range N).flatMap fun x =>
      (List.range N).flatMap fun z => triangles_cell_entries N x z := by
  show (forUp N (fun x s => forUp N (triangles_cell N x) s)
    { index := 0, indices := [] }).indices = _
  rw [triangles_outer]

theorem quad_entries_eq {N x z : Nat} (hNN : N * N < 2147483648)
    (hx : x + 1 < N) (hz : z + 1 < N) :
    quad_entries N (x * N + z) = quad_indices N (x * N + z) := by
  have h := cell_index_lt (show x + 1 < N from hx) (show z + 1 < N from hz)
  have e : (x + 1) * N = x * N + N := by ring
  unfold quad_entries quad_indices
  rw [wrap_of_lt (show x * N + z < 4294967296 by omega),
    wrap_of_lt (show x * N + z + N + 1 < 4294967296 by omega),
    wrap_of_lt (show x * N + z + N < 4294967296 by omega),
    wrap_of_lt (show x * N + z + 1 < 4294967296 by omega)]

theorem flatMap_range_succ_nil {α : Type} (f : Nat → List α) (n : Nat) (h : f n = []) :
    (List.range (n + 1)).flatMap f = (List.range n).flatMap f := by
  rw [List.range_succ, List.flatMap_append, List.flatMap_singleton, h, List.append_nil]

theorem triangles_indices_eq_spec {N : Nat} (hN : 2 ≤ N) (hNN : N * N < 2147483648) :
    triangles_indices N = triangles_indices_spec N := by
  have hlt := lt_of_sq_lt hNN
  have hpred : pred32 N = N - 1 := pred32_of_pos (by omega) (by omega)
  obtain ⟨m, rfl⟩ : ∃ m, N = m + 1 := ⟨N - 1, by omega⟩
  rw [triangles_indices_eq, triangles_indices_spec, Nat.add_sub_cancel]
  rw [flatMap_range_succ_nil]
  · apply flatMap_congr_mem
    intro x hx
    rw [List.mem_range] at hx
    rw [flatMap_range_succ_nil]
    · apply flatMap_congr_mem
      intro z hz
      rw [List.mem_range] at hz
      rw [triangles_cell_entries, hpred, if_pos (by omega)]
      exact quad_entries_eq hNN (by omega) (by omega)
    · rw [triangles_cell_entries, hpred, if_neg (by omega)]
  · apply List.flatMap_eq_nil_iff.mpr
    intro z _
    rw [triangles_cell_entries, hpred, if_neg (by omega)]

theorem length_flatMap_const {ι α : Type} (f : ι → List α) (l : List ι) (c : Nat)
    (h : ∀ a ∈ l, (f a).length = c) : (l.flatMap f).length = l.length * c := by
  induction l with
  | nil => simp
  | cons a t ih =>
    rw [List.flatMap_cons, List.length_append, h a (List.mem_cons_self a t),
      ih (fun b hb => h b (List.mem_cons_of_mem a hb)), List.length_cons]
    ring

theorem length_triangles_indices_spec (N : Nat) :
    (triangles_indices_spec N).length = 6 * (N - 1) ^ 2 := by
  unfold triangles_indices_spec
  rw [length_flatMap_const _ _ ((N - 1) * 6), List.length_range]
  · ring
  · intro x _
    rw [length_flatMap_const _ _ 6, List.length_range]
    intro z _
    rfl

theorem mem_triangles_indices_spec_lt {N i : Nat} (h : i ∈ triangles_indices_spec N) :
    i < N * N := by
  unfold triangles_indices_spec at h
  simp only [List.mem_flatMap, List.mem_range] at h
  obtain ⟨x, hx, z, hz, hi⟩ := h
  have hb := cell_index_lt (show x + 1 < N by omega) (show z + 1 < N by omega)
  have e : (x + 1) * N = x * N + N := by ring
  simp only [quad_indices, List.mem_cons, List.mem_singleton, List.not_mem_nil, or_false] at hi
  omega

/-! ## Results on the index topology -/

/-- C2 as the spec states it fails: for grid size 3 the strip index sequence
has 10 entries, not `2 * 3 * (3 - 1) = 12`, and for grid size 4 it has 22
entries, not `2 * 4 * (4 - 1) = 24`. -/
theorem strip_index_count_counterexample :
    (strip_indices 3).length = 10 ∧ (strip_indices 3).length ≠ 2 * 3 * (3 - 1) ∧
      (strip_indices 4).length = 22 ∧ (strip_indices 4).length ≠ 2 * 4 * (4 - 1) := by
  decide

/-- C2, amended: for every grid size `N ≥ 2` the strip index sequence has
exactly `2 * N * (N - 1) - 2 * ((N - 1) / 2)` entries (`2 * N` for every even
row and `2 * (N - 1)` for every odd row `x < N - 1`), and the returned draw
count is this number. -/
theorem strip_index_count (N : Nat) (hN : 2 ≤ N) (hNN : N * N < 2147483648) :
    (strip_indices N).length = 2 * N * (N - 1) - 2 * ((N - 1) / 2) ∧
      strip_draw_count N = 2 * N * (N - 1) - 2 * ((N - 1) / 2) := by
  have hlen : (strip_indices N).length = 2 * N * (N - 1) - 2 * ((N - 1) / 2) := by
    have h := row_start_last N (by omega)
    rw [length_strip_indices hN hNN]
    omega
  refine ⟨hlen, ?_⟩
  have hle : N * (N - 1) ≤ N * N := Nat.mul_le_mul_left N (Nat.sub_le N 1)
  have e : 2 * N * (N - 1) = 2 * (N * (N - 1)) := by ring
  unfold strip_draw_count
  rw [hlen]
  exact wrap_of_lt (by omega)

theorem strip_index_count_witness :
    2 ≤ 3 ∧ 3 * 3 < 2147483648 ∧
      (strip_indices 3).length = 2 * 3 * (3 - 1) - 2 * ((3 - 1) / 2) ∧
      strip_draw_count 3 = 2 * 3 * (3 - 1) - 2 * ((3 - 1) / 2) :=
  ⟨by decide, by decide, strip_index_count 3 (by decide) (by decide)⟩

/-- C3: for every grid size `N ≥ 2` the index sequence of the
discrete-triangle scheme has exactly `6 * (N - 1) ^ 2` entries, every entry
is below `N * N`, and it is the concatenation, over the cells `(x, z)` with
`x < N - 1` and `z < N - 1` in x-outer, z-inner order, of
`(idx, idx+N+1, idx+N, idx+N+1, idx, idx+1)` with `idx = x * N + z`. -/
theorem triangles_indices_correct (N : Nat) (hN : 2 ≤ N) (hNN : N * N < 2147483648) :
    (triangles_indices N).length = 6 * (N - 1) ^ 2 ∧
      (∀ i ∈ triangles_indices N, i < N * N) ∧
      triangles_indices N =
        (List.range (N - 1)).flatMap fun x =>
          (List.range (N - 1)).flatMap fun z =>
            [x * N + z, x * N + z + N + 1, x * N + z + N,
              x * N + z + N + 1, x * N + z, x * N + z + 1] := by
  have h := triangles_indices_eq_spec hN hNN
  refine ⟨?_, ?_, h⟩
  · rw [h]; exact length_triangles_indices_spec N
  · intro i hi
    rw [h] at hi
    exact mem_triangles_indices_spec_lt hi

theorem triangles_indices_correct_witness :
    2 ≤ 3 ∧ 3 * 3 < 2147483648 ∧
      (triangles_indices 3).length = 6 * (3 - 1) ^ 2 ∧
      (∀ i ∈ triangles_indices 3, i < 3 * 3) ∧
      triangles_indices 3 =
        (List.range (3 - 1)).flatMap fun x =>
          (List.range (3 - 1)).flatMap fun z =>
            [x * 3 + z, x * 3 + z + 3 + 1, x * 3 + z + 3,
              x * 3 + z + 3 + 1, x * 3 + z, x * 3 + z + 1] :=
  ⟨by decide, by decide, triangles_indices_correct 3 (by decide) (by decide)⟩

theorem strip_odd_body_eq {N x z : Nat} (hN : 2 ≤ N) (hNN : N * N < 2147483648)
    (hx : x < N - 1) (hz1 : 1 ≤ z) (hz2 : z ≤ N - 1) (indices : List Nat) :
    strip_odd_body N x z indices = indices ++ [z + (x + 1) * N, z - 1 + x * N] := by
  have h1 := cell_index_lt (show x < N by omega) (show z - 1 < N by omega)
  have h2 := cell_index_lt (show x + 1 < N by omega) (show z < N by omega)
  have h3 : wrap (z + 4294967295 + x * N) = z - 1 + x * N := by
    unfold wrap; omega
  simp [strip_odd_body, push_back, h3, wrap_of_lt (show z + (x + 1) * N < 4294967296 by omega)]

/-- C4: for every grid size `N ≥ 2` every entry of the strip index sequence
is a valid vertex index, that is, lies in `[0, N * N)`; in the odd rows the
loop runs over `1 ≤ z ≤ N - 1`, where the unsigned `z - 1 + x * N` does not
wrap around: the two entries pushed are `z + (x + 1) * N` and `z - 1 + x * N`. -/
theorem strip_indices_in_range (N : Nat) (hN : 2 ≤ N) (hNN : N * N < 2147483648) :
    (∀ i ∈ strip_indices N, 0 ≤ i ∧ i < N * N) ∧
      pred32 N = N - 1 ∧
      ∀ x z indices, x < N - 1 → 1 ≤ z → z ≤ N - 1 →
        strip_odd_body N x z indices = indices ++ [z + (x + 1) * N, z - 1 + x * N] := by
  refine ⟨fun i hi => ?_, pred32_of_pos (by omega) (by have := lt_of_sq_lt hNN; omega),
    fun x z indices hx hz1 hz2 => strip_odd_body_eq hN hNN hx hz1 hz2 indices⟩
  rw [strip_indices_eq_points hN hNN, List.mem_map] at hi
  obtain ⟨p, hp, rfl⟩ := hi
  rw [strip_points, List.mem_flatMap] at hp
  obtain ⟨x, hx, hp⟩ := hp
  rw [List.mem_range] at hx
  obtain ⟨h1, h2⟩ := mem_row_points hN hx hp
  exact ⟨Nat.zero_le _, cell_index_lt h1 h2⟩

theorem strip_indices_in_range_witness :
    2 ≤ 3 ∧ 3 * 3 < 2147483648 ∧
      (∀ i ∈ strip_indices 3, 0 ≤ i ∧ i < 3 * 3) ∧
      pred32 3 = 3 - 1 ∧
      ∀ x z indices, x < 3 - 1 → 1 ≤ z → z ≤ 3 - 1 →
        strip_odd_body 3 x z indices = indices ++ [z + (x + 1) * 3, z - 1 + x * 3] :=
  ⟨by decide, by decide, strip_indices_in_range 3 (by decide) (by decide)⟩

/-! ## Strip scheme: the entry at every position -/

theorem getElem?_flatMap_pair {ι α : Type} (f g : ι → α) (l : List ι) (i : Nat) :
    (l.flatMap fun z => [f z, g z])[2 * i]? = l[i]?.map f ∧
      (l.flatMap fun z => [f z, g z])[2 * i + 1]? = l[i]?.map g := by
  induction l generalizing i with
  | nil => simp
  | cons a t ih =>
    cases i with
    | zero => simp
    | succ i =>
      have e1 : 2 * (i + 1) = 2 * i + 1 + 1 := by ring
      rw [e1]
      simpa using ih i

theorem getElem?_down_range {k i : Nat} (h : i < k) : (down_range k)[i]? = some (k - i) := by
  induction k generalizing i with
  | zero => omega
  | succ k ih =>
    cases i with
    | zero => simp [down_range]
    | succ i =>
      simp only [down_range, List.getElem?_cons_succ]
      rw [ih (by omega)]
      congr 1
      omega

theorem row_len_eq_length (N x : Nat) : (row_points N x).length = row_len N x :=
  length_row_points N x

theorem row_start_succ_len (N x : Nat) : row_start N (x + 1) = row_start N x + row_len N x :=
  row_start_succ N x

theorem row_start_mono (N : Nat) {a b : Nat} (h : a ≤ b) : row_start N a ≤ row_start N b := by
  induction b with
  | zero =>
    have : a = 0 := by omega
    rw [this]
  | succ b ih =>
    rcases Nat.lt_or_ge a (b + 1) with h1 | h1
    · have := ih (by omega)
      rw [row_start_succ_len]
      omega
    · have : a = b + 1 := by omega
      rw [this]

theorem row_points_getElem? {N x j : Nat} (hj : j < row_len N x) :
    (row_points N x)[j]? = some (point_at N x j) := by
  unfold row_len at hj
  unfold row_points point_at
  obtain ⟨i, rfl | rfl⟩ : ∃ i, j = 2 * i ∨ j = 2 * i + 1 := ⟨j / 2, by omega⟩
  · have m : 2 * i % 2 = 0 := by omega
    have d : 2 * i / 2 = i := by omega
    rw [m, d]
    split
    · rename_i hx
      rw [if_pos hx] at hj
      rw [(getElem?_flatMap_pair _ _ _ i).1, List.getElem?_range (by omega)]
      simp
    · rename_i hx
      rw [if_neg hx] at hj
      rw [(getElem?_flatMap_pair _ _ _ i).1, getElem?_down_range (by omega)]
      simp
  · have m : (2 * i + 1) % 2 = 1 := by omega
    have d : (2 * i + 1) / 2 = i := by omega
    rw [m, d]
    split
    · rename_i hx
      rw [if_pos hx] at hj
      rw [(getElem?_flatMap_pair _ _ _ i).2, List.getElem?_range (by omega)]
      simp
    · rename_i hx
      rw [if_neg hx] at hj
      rw [(getElem?_flatMap_pair _ _ _ i).2, getElem?_down_range (by omega)]
      simp

theorem rows_getElem? (N : Nat) {n x j : Nat} (hx : x < n) (hj : j < row_len N x) :
    ((List.range n).flatMap (row_points N))[row_start N x + j]? = some (point_at N x j) := by
  induction n with
  | zero => omega
  | succ n ih =>
    rw [List.range_succ, List.flatMap_append, List.flatMap_singleton]
    rcases Nat.lt_or_ge x n with h1 | h1
    · have hm := row_start_mono N (show x + 1 ≤ n by omega)
      rw [row_start_succ_len] at hm
      rw [List.getElem?_append_left (by rw [length_rows]; omega)]
      exact ih h1
    · have e : x = n := by omega
      subst e
      rw [List.getElem?_append_right (by rw [length_rows]; omega), length_rows,
        Nat.add_sub_cancel_left]
      exact row_points_getElem? hj

theorem strip_points_getElem? {N x j : Nat} (hx : x < N - 1) (hj : j < row_len N x) :
    (strip_points N)[row_start N x + j]? = some (point_at N x j) :=
  rows_getElem? N hx hj

theorem row_start_decompose (N : Nat) {n p : Nat} (hp : p < row_start N n) :
    ∃ x, x < n ∧ ∃ j, j < row_len N x ∧ p = row_start N x + j := by
  induction n with
  | zero => simp [row_start] at hp
  | succ n ih =>
    rcases Nat.lt_or_ge p (row_start N n) with h1 | h1
    · obtain ⟨x, hx, j, hj, e⟩ := ih h1
      exact ⟨x, by omega, j, hj, e⟩
    · rw [row_start_succ_len] at hp
      exact ⟨n, by omega, p - row_start N n, by omega, by omega⟩

theorem row_start_unique (N : Nat) {a b u v : Nat} (hu : u < row_len N a) (hv : v < row_len N b)
    (h : row_start N a + u = row_start N b + v) : a = b ∧ u = v := by
  rcases Nat.lt_trichotomy a b with h1 | h1 | h1
  · have := row_start_mono N (show a + 1 ≤ b by omega)
    rw [row_start_succ_len] at this
    omega
  · subst h1
    exact ⟨rfl, by omega⟩
  · have := row_start_mono N (show b + 1 ≤ a by omega)
    rw [row_start_succ_len] at this
    omega

/-! ## Strip scheme: the triangles of the strip -/

theorem grid_point_vertex_index {N : Nat} {pt : Nat × Nat} (hc : pt.2 < N) :
    grid_point N (vertex_index N pt) = to_int_point pt := by
  have hN : 0 < N := by omega
  unfold grid_point vertex_index to_int_point
  rw [Nat.add_mul_div_right _ _ hN, Nat.div_eq_of_lt hc, Nat.add_mul_mod_self_right,
    Nat.mod_eq_of_lt hc, Nat.zero_add]

theorem point_at_col_lt {N x o : Nat} (hN : 2 ≤ N) (ho : o < row_len N x) :
    (point_at N x o).2 < N := by
  unfold row_len at ho
  unfold point_at
  split_ifs at ho ⊢ <;> simp <;> omega

theorem strip_entry_point {N x o v : Nat} (hN : 2 ≤ N) (hNN : N * N < 2147483648)
    (hx : x < N - 1) (ho : o < row_len N x)
    (h : (strip_indices N)[row_start N x + o]? = some v) :
    grid_point N v = to_int_point (point_at N x o) := by
  rw [strip_indices_eq_points hN hNN, List.getElem?_map, strip_points_getElem? hx ho] at h
  simp only [Option.map_some', Option.some.injEq] at h
  rw [← h]
  exact grid_point_vertex_index (point_at_col_lt hN ho)

theorem window_core (N x o : Nat) (hN : 2 ≤ N) (ho : o < row_len N x) (a b c : Int × Int)
    (ha : a = to_int_point (point_at N x o))
    (hb : b = to_int_point (if o + 1 < row_len N x then point_at N x (o + 1)
      else point_at N (x + 1) 0))
    (hc : c = to_int_point (if o + 2 < row_len N x then point_at N x (o + 2)
      else if o + 1 < row_len N x then point_at N (x + 1) 0 else point_at N (x + 1) 1)) :
    a ≠ b ∧ b ≠ c ∧ a ≠ c ∧
      (collinear a b c ↔
        (x % 2 = 0 ∧ o + 2 = row_len N x) ∨ (x % 2 = 1 ∧ o + 1 = row_len N x)) ∧
      (x % 2 = 0 ∧ o + 2 = row_len N x →
        a = to_int_point (x, N - 1) ∧ b = to_int_point (x + 1, N - 1) ∧
          c = to_int_point (x + 2, N - 1)) ∧
      (x % 2 = 1 ∧ o + 1 = row_len N x →
        a = to_int_point (x, 0) ∧ b = to_int_point (x + 1, 0) ∧
          c = to_int_point (x + 2, 0)) := by
  subst ha hb hc
  have hx2 : x % 2 = 0 ∨ x % 2 = 1 := by omega
  obtain ⟨z, rfl | rfl⟩ : ∃ z, o = 2 * z ∨ o = 2 * z + 1 := ⟨o / 2, by omega⟩
  · have m0 : 2 * z % 2 = 0 := by omega
    have m1 : (2 * z + 1) % 2 = 1 := by omega
    have m2 : (2 * z + 2) % 2 = 0 := by omega
    have d0 : 2 * z / 2 = z := by omega
    have d1 : (2 * z + 1) / 2 = z := by omega
    have d2 : (2 * z + 2) / 2 = z + 1 := by omega
    rcases hx2 with h0 | h1
    · have hs : (x + 1) % 2 = 1 := by omega
      simp only [row_len, point_at, h0, hs, m0, m1, m2, d0, d1, d2, to_int_point, collinear] at ho ⊢
      simp at ho ⊢
      split_ifs <;> simp <;> omega
    · have hs : (x + 1) % 2 = 0 := by omega
      simp only [row_len, point_at, h1, hs, m0, m1, m2, d0, d1, d2, to_int_point, collinear] at ho ⊢
      simp at ho ⊢
      split_ifs <;> simp <;> omega
  · have m0 : (2 * z + 1) % 2 = 1 := by omega
    have m1 : (2 * z + 1 + 1) % 2 = 0 := by omega
    have m2 : (2 * z + 1 + 2) % 2 = 1 := by omega
    have d0 : (2 * z + 1) / 2 = z := by omega
    have d1 : (2 * z + 1 + 1) / 2 = z + 1 := by omega
    have d2 : (2 * z + 1 + 2) / 2 = z + 1 := by omega
    rcases hx2 with h0 | h1
    · have hs : (x + 1) % 2 = 1 := by omega
      simp only [row_len, point_at, h0, hs, m0, m1, m2, d0, d1, d2, to_int_point, collinear] at ho ⊢
      simp at ho ⊢
      split_ifs <;> simp <;> omega
    · have hs : (x + 1) % 2 = 0 := by omega
      simp only [row_len, point_at, h1, hs, m0, m1, m2, d0, d1, d2, to_int_point, collinear] at ho ⊢
      simp at ho ⊢
      split_ifs <;> simp <;> omega

theorem row_len_ge_two {N : Nat} (hN : 2 ≤ N) (x : Nat) : 2 ≤ row_len N x := by
  unfold row_len; split <;> omega

theorem seam_imp {N x o : Nat} (hN : 2 ≤ N) (ho : o < row_len N x)
    (h : seam N (row_start N x + o)) :
    (x % 2 = 0 ∧ o + 2 = row_len N x) ∨ (x % 2 = 1 ∧ o + 1 = row_len N x) := by
  have hl := row_len_ge_two hN (x + 1)
  have hs := row_start_succ_len N x
  obtain ⟨y, _, ⟨hy2, e⟩ | ⟨hy2, e⟩⟩ := h
  · have hy := row_len_ge_two hN (y + 1)
    rcases Nat.lt_trichotomy (o + 2) (row_len N x) with h | h | h
    · have := row_start_unique N h (show 0 < row_len N (y + 1) by omega) (by omega)
      omega
    · have := row_start_unique N (show 0 < row_len N (x + 1) by omega)
        (show 0 < row_len N (y + 1) by omega) (by omega)
      left; exact ⟨by omega, h⟩
    · have := row_start_unique N (show 1 < row_len N (x + 1) by omega)
        (show 0 < row_len N (y + 1) by omega) (by omega)
      omega
  · have hy := row_len_ge_two hN (y + 1)
    rcases Nat.lt_or_ge (o + 1) (row_len N x) with h | h
    · have := row_start_unique N h (show 0 < row_len N (y + 1) by omega) (by omega)
      omega
    · have := row_start_unique N (show 0 < row_len N (x + 1) by omega)
        (show 0 < row_len N (y + 1) by omega) (by omega)
      right; exact ⟨by omega, by omega⟩

theorem seam_of {N x o : Nat} (hx : x + 1 < N - 1)
    (h : (x % 2 = 0 ∧ o + 2 = row_len N x) ∨ (x % 2 = 1 ∧ o + 1 = row_len N x)) :
    seam N (row_start N x + o) := by
  have hs := row_start_succ_len N x
  rcases h with ⟨h2, e⟩ | ⟨h2, e⟩
  · exact ⟨x, hx, Or.inl ⟨h2, by omega⟩⟩
  · exact ⟨x, hx, Or.inr ⟨h2, by omega⟩⟩

theorem next_row_lt {N x q : Nat} (h1 : row_start N (x + 1) ≤ q) (h2 : q < row_start N (N - 1)) :
    x + 1 < N - 1 := by
  by_contra hc
  have := row_start_mono N (show N - 1 ≤ x + 1 by omega)
  omega

theorem strip_triangles_of_core {N x o : Nat} (hN : 2 ≤ N) (ho : o < row_len N x)
    {a b c : Int × Int}
    (core : a ≠ b ∧ b ≠ c ∧ a ≠ c ∧
      (collinear a b c ↔
        (x % 2 = 0 ∧ o + 2 = row_len N x) ∨ (x % 2 = 1 ∧ o + 1 = row_len N x)) ∧
      (x % 2 = 0 ∧ o + 2 = row_len N x →
        a = to_int_point (x, N - 1) ∧ b = to_int_point (x + 1, N - 1) ∧
          c = to_int_point (x + 2, N - 1)) ∧
      (x % 2 = 1 ∧ o + 1 = row_len N x →
        a = to_int_point (x, 0) ∧ b = to_int_point (x + 1, 0) ∧
          c = to_int_point (x + 2, 0)))
    (hseam : (x % 2 = 0 ∧ o + 2 = row_len N x) ∨ (x % 2 = 1 ∧ o + 1 = row_len N x) →
      seam N (row_start N x + o)) :
    a ≠ b ∧ b ≠ c ∧ a ≠ c ∧ (collinear a b c ↔ seam N (row_start N x + o)) ∧
      (seam N (row_start N x + o) → ∃ r col : Nat,
        ((r % 2 = 0 ∧ col = N - 1) ∨ (r % 2 = 1 ∧ col = 0)) ∧
        a = ((r : Int), (col : Int)) ∧ b = (((r + 1 : Nat) : Int), (col : Int)) ∧
        c = (((r + 2 : Nat) : Int), (col : Int))) := by
  obtain ⟨c1, c2, c3, c4, c5, c6⟩ := core
  refine ⟨c1, c2, c3, c4.trans ⟨hseam, seam_imp hN ho⟩, fun h => ?_⟩
  rcases seam_imp hN ho h with h0 | h1
  · exact ⟨x, N - 1, Or.inl ⟨h0.1, rfl⟩, c5 h0⟩
  · exact ⟨x, 0, Or.inr ⟨h1.1, rfl⟩, c6 h1⟩

theorem strip_triangles_aux (N : Nat) (hN : 2 ≤ N) (hNN : N * N < 2147483648) (p i j k : Nat)
    (hi : (strip_indices N)[p]? = some i) (hj : (strip_indices N)[p + 1]? = some j)
    (hk : (strip_indices N)[p + 2]? = some k) :
    grid_point N i ≠ grid_point N j ∧ grid_point N j ≠ grid_point N k ∧
      grid_point N i ≠ grid_point N k ∧
      (collinear (grid_point N i) (grid_point N j) (grid_point N k) ↔ seam N p) ∧
      (seam N p → ∃ r col : Nat,
        ((r % 2 = 0 ∧ col = N - 1) ∨ (r % 2 = 1 ∧ col = 0)) ∧
        grid_point N i = ((r : Int), (col : Int)) ∧
        grid_point N j = (((r + 1 : Nat) : Int), (col : Int)) ∧
        grid_point N k = (((r + 2 : Nat) : Int), (col : Int))) := by
  have hlen : p + 2 < (strip_indices N).length := by
    by_contra hc
    rw [List.getElem?_eq_none (by omega)] at hk
    cases hk
  rw [length_strip_indices hN hNN] at hlen
  obtain ⟨x, hx, o, ho, rfl⟩ := row_start_decompose N (show p < row_start N (N - 1) by omega)
  have hs := row_start_succ_len N x
  have hl := row_len_ge_two hN (x + 1)
  have ga := strip_entry_point hN hNN hx ho hi
  by_cases h1 : o + 1 < row_len N x
  · have gb := strip_entry_point hN hNN hx h1 hj
    by_cases h2 : o + 2 < row_len N x
    · have gc := strip_entry_point hN hNN hx h2 hk
      have core := window_core N x o hN ho (grid_point N i) (grid_point N j) (grid_point N k) ga
        (by rw [gb, if_pos h1]) (by rw [gc, if_pos h2])
      exact strip_triangles_of_core hN ho core (fun h => by exfalso; omega)
    · have hx1 : x + 1 < N - 1 := next_row_lt (q := row_start N x + o + 2) (by omega) hlen
      have e : row_start N x + o + 2 = row_start N (x + 1) + 0 := by omega
      rw [e] at hk
      have gc := strip_entry_point hN hNN (show x + 1 < N - 1 from hx1)
        (show 0 < row_len N (x + 1) by omega) hk
      have core := window_core N x o hN ho (grid_point N i) (grid_point N j) (grid_point N k) ga
        (by rw [gb, if_pos h1]) (by rw [gc, if_neg h2, if_pos h1])
      exact strip_triangles_of_core hN ho core (seam_of hx1)
  · have hx1 : x + 1 < N - 1 := next_row_lt (q := row_start N x + o + 2) (by omega) hlen
    have e1 : row_start N x + o + 1 = row_start N (x + 1) + 0 := by omega
    have e2 : row_start N x + o + 2 = row_start N (x + 1) + 1 := by omega
    rw [e1] at hj
    rw [e2] at hk
    have gb := strip_entry_point hN hNN (show x + 1 < N - 1 from hx1)
      (show 0 < row_len N (x + 1) by omega) hj
    have gc := strip_entry_point hN hNN (show x + 1 < N - 1 from hx1)
      (show 1 < row_len N (x + 1) by omega) hk
    have core := window_core N x o hN ho (grid_point N i) (grid_point N j) (grid_point N k) ga
      (by rw [gb, if_neg h1]) (by rw [gc, if_neg (by omega), if_neg h1])
    exact strip_triangles_of_core hN ho core (seam_of hx1)

theorem seam_in_range {N x : Nat} (hN : 2 ≤ N) (hNN : N * N < 2147483648)
    (hx : x + 1 < N - 1) : row_start N (x + 1) + 1 < (strip_indices N).length := by
  rw [length_strip_indices hN hNN]
  have h1 := row_start_mono N (show x + 1 + 1 ≤ N - 1 by omega)
  have h2 := row_start_succ_len N (x + 1)
  have h3 := row_len_ge_two hN (x + 1)
  omega

/-- C9 as the spec states it fails: for grid size 3 the entries at the
positions 4, 5, 6 of the strip index sequence are 2, 5, 8, the grid points
`(0, 2)`, `(1, 2)`, `(2, 2)` of one column, so not every three consecutive
entries form a non-degenerate triangle. -/
theorem strip_degenerate_triangle_counterexample :
    ¬ ∀ p i j k : Nat, (strip_indices 3)[p]? = some i → (strip_indices 3)[p + 1]? = some j →
      (strip_indices 3)[p + 2]? = some k → proper_triangle 3 i j k := by
  intro h
  exact absurd (h 4 2 5 8 (by decide) (by decide) (by decide)) (by decide)

/-- C9, amended: for every grid size `N ≥ 2` and every three consecutive
entries `i`, `j`, `k` of the strip index sequence, at the positions `p`,
`p + 1`, `p + 2`, the three grid points are pairwise distinct, and they are
collinear exactly when the triple is a seam between the blocks of two rows
`x` and `x + 1` (`x + 1 < N - 1`): the last two entries of an even row with
the first entry of the next row, or the last entry of an odd row with the
first two entries of the next row. The points of a seam are `(x, c)`,
`(x + 1, c)`, `(x + 2, c)` with `c = N - 1` for even `x` and `c = 0` for odd
`x`. Every other triple is a non-degenerate triangle, and every row boundary
has its seam triple inside the sequence. -/
theorem strip_triangles (N : Nat) (hN : 2 ≤ N) (hNN : N * N < 2147483648) (p i j k : Nat)
    (hi : (strip_indices N)[p]? = some i) (hj : (strip_indices N)[p + 1]? = some j)
    (hk : (strip_indices N)[p + 2]? = some k) :
    grid_point N i ≠ grid_point N j ∧ grid_point N j ≠ grid_point N k ∧
      grid_point N i ≠ grid_point N k ∧
      (collinear (grid_point N i) (grid_point N j) (grid_point N k) ↔ seam N p) ∧
      (proper_triangle N i j k ↔ ¬ seam N p) ∧
      (seam N p → ∃ x c : Nat,
        ((x % 2 = 0 ∧ c = N - 1) ∨ (x % 2 = 1 ∧ c = 0)) ∧
        grid_point N i = ((x : Int), (c : Int)) ∧
        grid_point N j = (((x + 1 : Nat) : Int), (c : Int)) ∧
        grid_point N k = (((x + 2 : Nat) : Int), (c : Int))) ∧
      (∀ x, x + 1 < N - 1 → row_start N (x + 1) + 1 < (strip_indices N).length) := by
  obtain ⟨h1, h2, h3, h4, h5⟩ := strip_triangles_aux N hN hNN p i j k hi hj hk
  refine ⟨h1, h2, h3, h4, ?_, h5, fun x hx => seam_in_range hN hNN hx⟩
  unfold proper_triangle
  rw [h4]
  exact ⟨fun h => h.2.2.2, fun h => ⟨h1, h2, h3, h⟩⟩

theorem strip_triangles_witness :
    2 ≤ 3 ∧ 3 * 3 < 2147483648 ∧
      (strip_indices 3)[4]? = some 2 ∧ (strip_indices 3)[4 + 1]? = some 5 ∧
      (strip_indices 3)[4 + 2]? = some 8 ∧
      grid_point 3 2 ≠ grid_point 3 5 ∧ grid_point 3 5 ≠ grid_point 3 8 ∧
      grid_point 3 2 ≠ grid_point 3 8 ∧
      (collinear (grid_point 3 2) (grid_point 3 5) (grid_point 3 8) ↔ seam 3 4) ∧
      (proper_triangle 3 2 5 8 ↔ ¬ seam 3 4) ∧
      (seam 3 4 → ∃ x c : Nat,
        ((x % 2 = 0 ∧ c = 3 - 1) ∨ (x % 2 = 1 ∧ c = 0)) ∧
        grid_point 3 2 = ((x : Int), (c : Int)) ∧
        grid_point 3 5 = (((x + 1 : Nat) : Int), (c : Int)) ∧
        grid_point 3 8 = (((x + 2 : Nat) : Int), (c : Int))) ∧
      (∀ x, x + 1 < 3 - 1 → row_start 3 (x + 1) + 1 < (strip_indices 3).length) :=
  ⟨by decide, by decide, by decide, by decide, by decide,
    strip_triangles 3 (by decide) (by decide) 4 2 5 8 (by decide) (by decide) (by decide)⟩

theorem seam_example : seam 3 4 ∧ ¬ seam 3 5 ∧ ∀ p, ¬ seam 2 p := by
  refine ⟨by decide, by decide, ?_⟩
  rintro p ⟨x, hx, _⟩
  omega

/-! ## Results on the candidate triangles of the strip normal estimator -/

/-- C1 fails on the code: for grid size 3 and the cell `(2, 1)` of the last
row, the candidate "left upper middle" is accepted although
`vertex_top_left_adjacent = 9` is outside `[0, 9)`; `calculate_normal` is
called with `normal_indices = [7, 9, 6, 7, 4, 8]` and reads
`terrain_attributes[9]`. -/
theorem normal_candidate_out_of_range :
    strip_normal_candidates 3 2 1 = { normal_indices := [7, 9, 6, 7, 4, 8], num_triangles := 2 } ∧
      ¬ normal_reads_in_range 3 2 1 ∧
      strip_generate_terrain 3 = Except.error Fault.out_of_bounds := by
  refine ⟨by decide, by decide, rfl⟩

/-! ## Results on the height map -/

theorem range_two : List.range 2 = [0, 1] := rfl

/-- C5 fails on the code: with the accumulated noise sums `-0.1, -0.2, -0.3,
-0.4` on a grid of size 2, `max_noise_height` keeps its initial value
`numeric_limits<float>::min() > 0`, and every entry of the returned height
map is below 1 (the largest is `0.3 / (0.4 + 2 ^ (-126))`). -/
theorem triangles_height_map_max_not_one :
    triangles_generate_height_map 2 (noise_of_list 2 [-1 / 10, -2 / 10, -3 / 10, -4 / 10]) =
        [(3 / 10) / (4 / 10 + FLT_MIN), (2 / 10) / (4 / 10 + FLT_MIN),
          (1 / 10) / (4 / 10 + FLT_MIN), 0] ∧
      ∀ h ∈ triangles_generate_height_map 2
        (noise_of_list 2 [-1 / 10, -2 / 10, -3 / 10, -4 / 10]), h < 1 := by
  have e : triangles_generate_height_map 2
      (noise_of_list 2 [-1 / 10, -2 / 10, -3 / 10, -4 / 10]) =
        [(3 / 10) / (4 / 10 + FLT_MIN), (2 / 10) / (4 / 10 + FLT_MIN),
          (1 / 10) / (4 / 10 + FLT_MIN), 0] := by
    simp only [triangles_generate_height_map, forUp, range_two, List.foldl_cons, List.foldl_nil,
      triangles_height_cell, track_bounds, height_init, noise_of_list, wrap, FLT_MIN, FLT_MAX,
      triangles_remap_cell, inverse_lerp]
    norm_num [List.getD, List.set]
  refine ⟨e, ?_⟩
  rw [e]
  intro h hh
  simp only [List.mem_cons, List.mem_singleton, List.not_mem_nil, or_false] at hh
  rcases hh with rfl | rfl | rfl | rfl <;> norm_num [FLT_MIN]

/-- C6 fails on the code: with the accumulated noise sums `0.1, 0.2, 0.3,
0.4` on a grid of size 2 every sample raises `max_noise_height`, the
`else if` never updates `min_noise_height`, and the strip variant returns
the height map `[1, 1, 1, 1]`, whose smallest value is 1. -/
theorem strip_height_map_min_not_zero :
    strip_generate_height_map 2 (noise_of_list 2 [1 / 10, 2 / 10, 3 / 10, 4 / 10]) =
        [1, 1, 1, 1] ∧
      (0 : ℚ) ∉ strip_generate_height_map 2 (noise_of_list 2 [1 / 10, 2 / 10, 3 / 10, 4 / 10]) := by
  have e : strip_generate_height_map 2 (noise_of_list 2 [1 / 10, 2 / 10, 3 / 10, 4 / 10]) =
      [1, 1, 1, 1] := by
    simp only [strip_generate_height_map, forUp, range_two, List.foldl_cons, List.foldl_nil,
      strip_height_cell, track_bounds, height_init, noise_of_list, wrap, FLT_MIN, FLT_MAX,
      inverse_lerp]
    norm_num [List.getD, List.set]
  refine ⟨e, ?_⟩
  rw [e]
  norm_num

/-- C7 fails on the code: with the accumulated noise sums `0.1, 0.2, 0.5,
0.3` on a grid of size 2 the first three samples only raise
`max_noise_height`, so `min_noise_height` ends as `0.3`, and the returned
height map is `[-1, -1/2, 1, 0]`: two samples are below 0. -/
theorem triangles_height_map_sample_negative :
    triangles_generate_height_map 2 (noise_of_list 2 [1 / 10, 2 / 10, 5 / 10, 3 / 10]) =
        [-1, -1 / 2, 1, 0] ∧
      ∃ h ∈ triangles_generate_height_map 2 (noise_of_list 2 [1 / 10, 2 / 10, 5 / 10, 3 / 10]),
        ¬ (0 ≤ h ∧ h ≤ 1) := by
  have e : triangles_generate_height_map 2 (noise_of_list 2 [1 / 10, 2 / 10, 5 / 10, 3 / 10]) =
      [-1, -1 / 2, 1, 0] := by
    simp only [triangles_generate_height_map, forUp, range_two, List.foldl_cons, List.foldl_nil,
      triangles_height_cell, track_bounds, height_init, noise_of_list, wrap, FLT_MIN, FLT_MAX,
      triangles_remap_cell, inverse_lerp]
    norm_num [List.getD, List.set]
  refine ⟨e, -1, ?_, by norm_num⟩
  rw [e]
  exact List.mem_cons_self _ _

/-! ## Results on the colour classifier -/

theorem color_lookup_eq_spec (h : ℚ) : color_lookup white h = classify_spec h := by
  simp only [color_lookup, classify_spec, colors, heights, color_scan, List.getD_cons_zero,
    List.getD_cons_succ, List.zip_cons_cons, List.zip_nil_right, List.find?_cons,
    List.find?_nil]
  by_cases h1 : h ≤ 3 / 10
  · simp [h1]
  by_cases h2 : h ≤ 4 / 10
  · simp [h1, h2]
  by_cases h3 : h ≤ 45 / 100
  · simp [h1, h2, h3]
  by_cases h4 : h ≤ 55 / 100
  · simp [h1, h2, h3, h4]
  by_cases h5 : h ≤ 6 / 10
  · simp [h1, h2, h3, h4, h5]
  by_cases h6 : h ≤ 7 / 10
  · simp [h1, h2, h3, h4, h5, h6]
  by_cases h7 : h ≤ 9 / 10
  · simp [h1, h2, h3, h4, h5, h6, h7]
  by_cases h8 : h ≤ 1
  · simp [h1, h2, h3, h4, h5, h6, h7, h8]
  · simp [h1, h2, h3, h4, h5, h6, h7, h8]

theorem color_lookup_above_one (h : ℚ) (h1 : 1 < h) : color_lookup white h = white := by
  simp only [color_lookup, colors, heights, color_scan, List.getD_cons_zero,
    List.getD_cons_succ]
  rw [if_neg (by linarith), if_neg (by linarith), if_neg (by linarith), if_neg (by linarith),
    if_neg (by linarith), if_neg (by linarith), if_neg (by linarith), if_neg (by linarith)]

theorem color_lookup_samples :
    color_lookup white 0 = (12 / 100, 29 / 100, 72 / 100) ∧
      color_lookup white (3 / 10) = (12 / 100, 29 / 100, 72 / 100) ∧
      color_lookup white (31 / 100) = (13 / 100, 30 / 100, 76 / 100) ∧
      color_lookup white 1 = (1, 1, 1) ∧
      color_lookup white (15 / 10) = (1, 1, 1) := by
  simp only [color_lookup, colors, heights, color_scan, List.getD_cons_zero,
    List.getD_cons_succ, white]
  norm_num

/-- The scan against the decimal thresholds, for every rational height `h`:
started with the default white it gives the colour paired with the first
threshold `t` of `[0.3, 0.4, 0.45, 0.55, 0.6, 0.7, 0.9, 1.0]` with `h ≤ t`,
and the default white when `h > 1`. With these exact thresholds the heights
`0, 3/10, 31/100, 1, 3/2` give deep water, deep water, shallow water, snow
and the default white; `3/10` is not a value of the type `float`. -/
theorem color_scan_decimal :
    (∀ h : ℚ, color_lookup white h =
      match (heights.zip colors).find? fun band => decide (h ≤ band.1) with
      | some band => band.2
      | none => (1, 1, 1)) ∧
    (∀ h : ℚ, 1 < h → color_lookup white h = (1, 1, 1)) ∧
    heights = [3 / 10, 4 / 10, 45 / 100, 55 / 100, 6 / 10, 7 / 10, 9 / 10, 1] ∧
    color_lookup white 0 = (12 / 100, 29 / 100, 72 / 100) ∧
    color_lookup white (3 / 10) = (12 / 100, 29 / 100, 72 / 100) ∧
    color_lookup white (31 / 100) = (13 / 100, 30 / 100, 76 / 100) ∧
    color_lookup white 1 = (1, 1, 1) ∧
    color_lookup white (15 / 10) = (1, 1, 1) :=
  ⟨color_lookup_eq_spec, color_lookup_above_one, rfl, color_lookup_samples⟩

theorem color_scan_decimal_example :
    (1 : ℚ) < 3 / 2 ∧ color_lookup white (3 / 2) = (1, 1, 1) :=
  ⟨by norm_num, color_scan_decimal.2.1 (3 / 2) (by norm_num)⟩

/-! ## Results on degenerate grid sizes -/

theorem forUpM_fail_first {σ : Type} (n : Nat) (body : Nat → σ → Except Fault σ) (s : σ)
    (e : Fault) (h : body 0 s = Except.error e) :
    forUpM (n + 1) body s = Except.error e := by
  unfold forUpM
  rw [List.range_succ_eq_map, List.foldlM_cons, h]
  rfl

theorem pred32_zero : pred32 0 = 4294967294 + 1 := by decide

theorem triangles_pass_cell_zero : triangles_pass_cell 0 0 0 = Except.error Fault.out_of_range :=
  rfl

theorem ok_bind {α β : Type} (a : α) (f : α → Except Fault β) :
    (Except.ok a >>= f) = f a := rfl

theorem error_bind {α β : Type} (e : Fault) (f : α → Except Fault β) :
    (Except.error e >>= f) = Except.error e := rfl

theorem pure_eq_ok {α : Type} (a : α) : (pure a : Except Fault α) = Except.ok a := rfl

theorem triangles_generate_terrain_zero :
    triangles_generate_terrain 0 = Except.error Fault.out_of_range := by
  have h1 : triangles_vertex_loop_run 0 = Except.ok { index := 0, indices := [] } := rfl
  have h2 : forUpM (pred32 0) (fun _ va =>
      forUpM (pred32 0) (fun _ va => triangles_pass_cell 0 0 va) va) 0
        = Except.error Fault.out_of_range := by
    rw [pred32_zero]
    apply forUpM_fail_first
    apply forUpM_fail_first
    exact triangles_pass_cell_zero
  unfold triangles_generate_terrain
  rw [h1, ok_bind, h2, error_bind]

theorem strip_generate_terrain_zero :
    strip_generate_terrain 0 = Except.ok (strip_indices 0) := by
  have h1 : strip_vertex_loop 0 = Except.ok (0, 0) := rfl
  have h2 : ∀ vertices, forUpM 0 (fun x va =>
      forUpM 0 (fun z va => strip_normal_cell 0 vertices x z va) va) 0 = Except.ok 0 :=
    fun _ => rfl
  unfold strip_generate_terrain
  rw [h1, ok_bind]
  simp only []
  rw [h2, ok_bind, pure_eq_ok]

theorem mem_strip_indices_zero : 4294967295 ∈ strip_indices 0 := by
  rw [strip_indices_eq, List.mem_flatMap]
  refine ⟨1, ?_, ?_⟩
  · rw [List.mem_range, pred32_zero]; omega
  · have hodd : strip_row_entries 0 1 =
        (down_range (pred32 0)).flatMap fun z =>
          [wrap (z + (1 + 1) * 0), wrap (z + 4294967295 + 1 * 0)] :=
      rfl
    rw [hodd, List.mem_flatMap]
    refine ⟨4294967295, ?_, ?_⟩
    · rw [mem_down_range, pred32_zero]; omega
    · simp [wrap]

/-- C10 as the spec states it fails for grid size 0: the loop bound
`grid_size - 1` wraps to `2 ^ 32 - 1`, the normal and colour pass of the
discrete-triangle scheme is entered and its first `at()` lookup on the empty
vertex vector throws `std::out_of_range`. -/
theorem degenerate_grid_counterexample :
    triangles_generate_terrain 0 ≠ Except.ok [] := by
  rw [triangles_generate_terrain_zero]
  intro h
  cases h

/-- C10, amended: for grid size 1 `generate_terrain` of both schemes
completes and returns an empty index sequence. For grid size 0 the bound
`grid_size - 1` is `2 ^ 32 - 1`: the discrete-triangle scheme fails at its
first `at()` lookup, and the index loop of the strip scheme pushes entries
(row `x = 1` pushes `2 ^ 32 - 1` first), so it does not return an empty
index sequence. -/
theorem degenerate_grid :
    strip_generate_terrain 1 = Except.ok [] ∧
      triangles_generate_terrain 1 = Except.ok [] ∧
      pred32 0 = 2 ^ 32 - 1 ∧
      triangles_generate_terrain 0 = Except.error Fault.out_of_range ∧
      4294967295 ∈ strip_indices 0 ∧
      strip_indices 0 ≠ [] ∧
      strip_generate_terrain 0 ≠ Except.ok [] := by
  have hne : strip_indices 0 ≠ [] := by
    intro h
    have := mem_strip_indices_zero
    rw [h] at this
    cases this
  refine ⟨rfl, rfl, by decide, triangles_generate_terrain_zero, mem_strip_indices_zero, hne, ?_⟩
  rw [strip_generate_terrain_zero]
  intro h
  exact hne (Except.ok.inj h)

/-! ## Strip scheme: the vertex list -/

theorem getElem?_flatMap_block {α : Type} (f : Nat → List α) (N : Nat)
    (hlen : ∀ i, (f i).length = N) {n x z : Nat} (hx : x < n) (hz : z < N) :
    ((List.range n).flatMap f)[x * N + z]? = (f x)[z]? := by
  have hl : ∀ m, ((List.range m).flatMap f).length = m * N := fun m => by
    rw [length_flatMap_const f _ N (fun a _ => hlen a), List.length_range]
  induction n with
  | zero => omega
  | succ n ih =>
    rw [List.range_succ, List.flatMap_append, List.flatMap_singleton]
    rcases Nat.lt_or_ge x n with h1 | h1
    · have hm : (x + 1) * N ≤ n * N := Nat.mul_le_mul_right N h1
      have e : (x + 1) * N = x * N + N := by ring
      rw [List.getElem?_append_left (by rw [hl]; omega)]
      exact ih h1
    · have e : x = n := by omega
      subst e
      rw [List.getElem?_append_right (by rw [hl]; omega), hl, Nat.add_sub_cancel_left]

theorem strip_vertex_inner (N : Nat) (height_map : List ℚ) (x k : Nat) (L : List Vertex) :
    forUp k (strip_vertex_body height_map x) (x * N, L) =
      (x * N + k, L ++ (List.range k).map (strip_vertex N height_map x)) := by
  induction k with
  | zero => simp [forUp_zero]
  | succ k ih =>
    rw [forUp_succ, ih, List.range_succ, List.map_append]
    simp [strip_vertex_body, strip_vertex, push_back, Nat.add_assoc]

theorem strip_vertex_outer (N : Nat) (height_map : List ℚ) (n : Nat) :
    forUp n (fun x s => forUp N (strip_vertex_body height_map x) s) (0, []) =
      (n * N, (List.range n).flatMap fun x =>
        (List.range N).map (strip_vertex N height_map x)) := by
  induction n with
  | zero => simp [forUp_zero]
  | succ n ih =>
    rw [forUp_succ, ih, strip_vertex_inner, List.range_succ, List.flatMap_append,
      List.flatMap_singleton]
    congr 1
    ring

theorem strip_vertices_eq (N : Nat) (height_map : List ℚ) :
    strip_vertices N height_map =
      (List.range N).flatMap fun x => (List.range N).map (strip_vertex N height_map x) := by
  show (forUp N (fun x s => forUp N (strip_vertex_body height_map x) s) (0, [])).2 = _
  rw [strip_vertex_outer]

theorem length_strip_vertices (N : Nat) (height_map : List ℚ) :
    (strip_vertices N height_map).length = N * N := by
  rw [strip_vertices_eq, length_flatMap_const _ _ N (fun a _ => by simp), List.length_range]

theorem strip_vertices_getElem? (N : Nat) (height_map : List ℚ) {x z : Nat}
    (hx : x < N) (hz : z < N) :
    (strip_vertices N height_map)[x * N + z]? = some (strip_vertex N height_map x z) := by
  rw [strip_vertices_eq, getElem?_flatMap_block _ N (fun i => by simp) hx hz,
    List.getElem?_map, List.getElem?_range hz]
  rfl

/-- C11: for every grid size `N` the vertex list built by the vertex loop
of the strip scheme has exactly `N * N` entries, and for every cell
`(x, z)` with `x, z < N` the vertex at index `x * N + z` has the position
`(x, 0, z)` (the height is not applied to the position) and the colour that
the colour classifier gives for `height_map[x * N + z]`. -/
theorem strip_vertices_correct (N : Nat) (height_map : List ℚ) :
    (strip_vertices N height_map).length = N * N ∧
      ∀ x z, x < N → z < N →
        ∃ v, (strip_vertices N height_map)[x * N + z]? = some v ∧
          v.position = ((x : ℚ), 0, (z : ℚ)) ∧
          v.color = vertex_color (height_map.getD (x * N + z) 0) ∧
          v.color = classify_spec (height_map.getD (x * N + z) 0) :=
  ⟨length_strip_vertices N height_map, fun x z hx hz =>
    ⟨strip_vertex N height_map x z, strip_vertices_getElem? N height_map hx hz, rfl, rfl,
      color_lookup_eq_spec _⟩⟩

theorem strip_vertices_correct_witness :
    1 < 2 ∧ 0 < 2 ∧
      ∃ v, (strip_vertices 2 [1 / 10, 35 / 100, 1 / 2, 2])[1 * 2 + 0]? = some v ∧
        v.position = (((1 : Nat) : ℚ), 0, ((0 : Nat) : ℚ)) ∧
        v.color = vertex_color ([1 / 10, 35 / 100, 1 / 2, 2].getD (1 * 2 + 0) 0) ∧
        v.color = classify_spec ([1 / 10, 35 / 100, 1 / 2, 2].getD (1 * 2 + 0) 0) :=
  ⟨by decide, by decide,
    (strip_vertices_correct 2 [1 / 10, 35 / 100, 1 / 2, 2]).2 1 0 (by decide) (by decide)⟩

/-! ## Results on the coverage of the strip -/

/-- C13 fails on the code: for grid size 3 the strip index sequence is
`0, 3, 1, 4, 2, 5, 8, 4, 7, 3`; the vertex index 6, the cell `(2, 0)`, does
not occur in it, so that vertex is in no triangle of the strip. -/
theorem strip_misses_vertex :
    strip_indices 3 = [0, 3, 1, 4, 2, 5, 8, 4, 7, 3] ∧ 6 < 3 * 3 ∧ 6 ∉ strip_indices 3 := by
  decide

/-! ## Results on the second loop of the discrete-triangle scheme -/

theorem triangles_vertex_loop_index (N : Nat) : (triangles_vertex_loop N).index = N * N := by
  show (forUp N (fun x s => forUp N (triangles_cell N x) s)
    { index := 0, indices := [] }).index = _
  rw [triangles_outer]

/-- C14 fails on the code: the variable `index` is left by the vertex loop
at `N * N`, for every grid size `N`, so the subscript `height_map[index]` of
the colour pass is never below the size of `height_map`; for grid size 2 the
first visited cell reads `height_map[4]` of a 4-element vector. -/
theorem triangles_stale_height_index :
    (∀ N, (triangles_vertex_loop N).index = N * N) ∧
      (∀ N, ¬ (triangles_vertex_loop N).index < wrap (N * N)) ∧
      triangles_pass_cell 2 (triangles_vertex_loop 2).index 0 = Except.error Fault.out_of_bounds ∧
      triangles_generate_terrain 2 = Except.error Fault.out_of_bounds := by
  refine ⟨triangles_vertex_loop_index, fun N => ?_, rfl, rfl⟩
  rw [triangles_vertex_loop_index]
  have := Nat.mod_le (N * N) 4294967296
  unfold wrap
  omega

/-- C15 fails on the code: for grid size 3 the second loop visits the
cells `(0,0), (0,1), (1,0), (1,1)` with `va_index = 0, 1, 2, 3`, while their
quads were emitted at `idx = 0, 1, 3, 4`; for the cell `(1, 0)` the pass
handles the triangles `(2, 6, 5)` and `(6, 2, 3)`, not `(3, 7, 6)` and
`(7, 3, 4)`. -/
theorem triangles_pass_wrong_cursor :
    triangles_pass_visits 3 = [(0, 0, 0), (0, 1, 1), (1, 0, 2), (1, 1, 3)] ∧
      (2 : Nat) ≠ 1 * 3 + 0 ∧
      (triangles_pass_visits 3).flatMap (fun v => pass_triangles 3 v.2.2) =
        [(0, 4, 3), (4, 0, 1), (1, 5, 4), (5, 1, 2), (2, 6, 5), (6, 2, 3), (3, 7, 6), (7, 3, 4)] ∧
      chunk3 (triangles_indices 3) =
        [(0, 4, 3), (4, 0, 1), (1, 5, 4), (5, 1, 2), (3, 7, 6), (7, 3, 4), (4, 8, 7), (8, 4, 5)] ∧
      (triangles_pass_visits 3).flatMap (fun v => pass_triangles 3 v.2.2) ≠
        chunk3 (triangles_indices 3) := by
  decide

/-! ## Discrete-triangle scheme: the vertex list and the winding of the triangles -/

theorem getElem?_append_cons_length {α : Type} (A B : List α) (a : α) :
    (A ++ a :: B)[A.length]? = some a := by
  rw [List.getElem?_append_right (Nat.le_refl _)]
  simp

theorem set_append_cons_length {α : Type} (A B : List α) (a v : α) :
    (A ++ a :: B).set A.length v = A ++ v :: B := by
  induction A with
  | nil => rfl
  | cons h t ih => simp [ih]

theorem triangles_position_body_eq (height_map : List ℚ) (x z : Nat) (A B : List Vertex) :
    triangles_position_body height_map x z (A.length, A ++ initial_vertex :: B) =
      (A.length + 1,
        A ++ { position := ((x : ℚ), curve_fit (height_map.getD A.length 0) * height_scale,
                 (z : ℚ))
               normal := NormalAttr.literal (0, 1, 0)
               color := (1, 1, 1) } :: B) := by
  simp only [triangles_position_body, getElem?_append_cons_length, set_append_cons_length]
  rfl

theorem triangles_position_inner (N : Nat) (height_map : List ℚ) (x k m : Nat)
    (A : List Vertex) (hA : A.length = x * N) :
    forUp k (triangles_position_body height_map x)
        (x * N, A ++ List.replicate (k + m) initial_vertex) =
      (x * N + k, A ++ (List.range k).map (triangles_vertex N height_map x)
        ++ List.replicate m initial_vertex) := by
  induction k generalizing m with
  | zero => simp [forUp_zero]
  | succ k ih =>
    have e : k + 1 + m = k + (m + 1) := by omega
    rw [forUp_succ, e, ih (m + 1), List.range_succ, List.map_append, List.replicate_succ]
    have hl : (A ++ (List.range k).map (triangles_vertex N height_map x)).length = x * N + k := by
      simp [hA]
    rw [← hl, triangles_position_body_eq, hl]
    simp [triangles_vertex, Nat.add_assoc]

theorem triangles_position_outer (N : Nat) (height_map : List ℚ) (n m : Nat) :
    forUp n (fun x s => forUp N (triangles_position_body height_map x) s)
        (0, List.replicate (n * N + m) initial_vertex) =
      (n * N, ((List.range n).flatMap fun x =>
        (List.range N).map (triangles_vertex N height_map x))
          ++ List.replicate m initial_vertex) := by
  induction n generalizing m with
  | zero => simp [forUp_zero]
  | succ n ih =>
    have e : (n + 1) * N + m = n * N + (N + m) := by ring
    rw [forUp_succ, e, ih (N + m)]
    rw [triangles_position_inner N height_map n N m _
      (by rw [length_flatMap_const _ _ N (fun a _ => by simp), List.length_range])]
    rw [List.range_succ, List.flatMap_append, List.flatMap_singleton]
    congr 1
    ring

theorem triangles_vertices_eq {N : Nat} (hNN : N * N < 2147483648) (height_map : List ℚ) :
    triangles_vertices N height_map =
      (List.range N).flatMap fun x => (List.range N).map (triangles_vertex N height_map x) := by
  have h := triangles_position_outer N height_map N 0
  have hw : wrap (N * N) = N * N := wrap_of_lt (by omega)
  show (forUp N (fun x s => forUp N (triangles_position_body height_map x) s)
    (0, triangles_vertex_init N)).2 = _
  have hi : triangles_vertex_init N = List.replicate (N * N + 0) initial_vertex := by
    simp [triangles_vertex_init, hw, initial_vertex]
  rw [hi, h]
  simp

theorem length_triangles_vertices {N : Nat} (hNN : N * N < 2147483648) (height_map : List ℚ) :
    (triangles_vertices N height_map).length = N * N := by
  rw [triangles_vertices_eq hNN,
    length_flatMap_const _ _ N (fun a _ => by simp), List.length_range]

theorem triangles_vertices_getElem? {N : Nat} (hNN : N * N < 2147483648)
    (height_map : List ℚ) {x z : Nat} (hx : x < N) (hz : z < N) :
    (triangles_vertices N height_map)[x * N + z]? = some (triangles_vertex N height_map x z) := by
  rw [triangles_vertices_eq hNN, getElem?_flatMap_block _ N (fun i => by simp) hx hz,
    List.getElem?_map, List.getElem?_range hz]
  rfl

theorem chunk3_quad (N i : Nat) (rest : List Nat) :
    chunk3 (quad_indices N i ++ rest) = quad_triangles N i ++ chunk3 rest := by
  simp [quad_indices, quad_triangles, chunk3]

theorem chunk3_flatMap_quads {ι : Type} (N : Nat) (idx : ι → Nat) (l : List ι)
    (rest : List Nat) :
    chunk3 (l.flatMap (fun i => quad_indices N (idx i)) ++ rest) =
      l.flatMap (fun i => quad_triangles N (idx i)) ++ chunk3 rest := by
  induction l with
  | nil => simp
  | cons a t ih =>
    simp only [List.flatMap_cons, List.append_assoc]
    rw [chunk3_quad, ih]

theorem chunk3_flatMap_rows {ι κ : Type} (N : Nat) (idx : ι → κ → Nat) (cells : List κ)
    (rows : List ι) :
    chunk3 (rows.flatMap fun x => cells.flatMap fun z => quad_indices N (idx x z)) =
      rows.flatMap fun x => cells.flatMap fun z => quad_triangles N (idx x z) := by
  induction rows with
  | nil => simp [chunk3]
  | cons a t ih =>
    simp only [List.flatMap_cons]
    rw [chunk3_flatMap_quads, ih]

theorem mem_chunk3_triangles_indices {N : Nat} (hN : 2 ≤ N) (hNN : N * N < 2147483648)
    {t : Nat × Nat × Nat} (ht : t ∈ chunk3 (triangles_indices N)) :
    ∃ x z, x < N - 1 ∧ z < N - 1 ∧ t ∈ quad_triangles N (x * N + z) := by
  rw [triangles_indices_eq_spec hN hNN, triangles_indices_spec, chunk3_flatMap_rows] at ht
  simp only [List.mem_flatMap, List.mem_range] at ht
  obtain ⟨x, hx, z, hz, h⟩ := ht
  exact ⟨x, z, hx, hz, h⟩

theorem triangles_winding_aux (N : Nat) (hN : 2 ≤ N) (hNN : N * N < 2147483648)
    (height_map : List ℚ) (t : Nat × Nat × Nat) (ht : t ∈ chunk3 (triangles_indices N)) :
    ∃ va vb vc, (triangles_vertices N height_map)[t.1]? = some va ∧
      (triangles_vertices N height_map)[t.2.1]? = some vb ∧
      (triangles_vertices N height_map)[t.2.2]? = some vc ∧
      (cross (vsub vb.position va.position) (vsub vc.position va.position)).2.1 = 1 := by
  obtain ⟨x, z, hx, hz, h⟩ := mem_chunk3_triangles_indices hN hNN ht
  have e1 : x * N + z + N + 1 = (x + 1) * N + (z + 1) := by ring
  have e2 : x * N + z + N = (x + 1) * N + z := by ring
  have e3 : x * N + z + 1 = x * N + (z + 1) := by ring
  have g00 := triangles_vertices_getElem? hNN height_map (show x < N by omega) (show z < N by omega)
  have g11 := triangles_vertices_getElem? hNN height_map (show x + 1 < N by omega)
    (show z + 1 < N by omega)
  have g10 := triangles_vertices_getElem? hNN height_map (show x + 1 < N by omega)
    (show z < N by omega)
  have g01 := triangles_vertices_getElem? hNN height_map (show x < N by omega)
    (show z + 1 < N by omega)
  simp only [quad_triangles, List.mem_cons, List.mem_singleton, List.not_mem_nil, or_false] at h
  rcases h with rfl | rfl
  · refine ⟨_, _, _, g00, by rw [e1]; exact g11, by rw [e2]; exact g10, ?_⟩
    simp only [cross, vsub, triangles_vertex]
    push_cast
    ring
  · refine ⟨_, _, _, by rw [e1]; exact g11, g00, by rw [e3]; exact g01, ?_⟩
    simp only [cross, vsub, triangles_vertex]
    push_cast
    ring

/-- C17: for every grid size `N ≥ 2`, every height map and every triangle
`(a, b, c)` emitted into the index buffer of the discrete-triangle scheme,
the three vertices exist and, with their positions `(x, y, z)` as written by
the vertex loop, the y-component of `cross(pos b - pos a, pos c - pos a)` is
exactly 1, whatever the heights are: both triangles of every quad are
non-degenerate and wound the same way. -/
theorem triangles_winding (N : Nat) (hN : 2 ≤ N) (hNN : N * N < 2147483648)
    (height_map : List ℚ) (t : Nat × Nat × Nat) (ht : t ∈ chunk3 (triangles_indices N)) :
    ∃ va vb vc, (triangles_vertices N height_map)[t.1]? = some va ∧
      (triangles_vertices N height_map)[t.2.1]? = some vb ∧
      (triangles_vertices N height_map)[t.2.2]? = some vc ∧
      (cross (vsub vb.position va.position) (vsub vc.position va.position)).2.1 = 1 :=
  triangles_winding_aux N hN hNN height_map t ht

theorem triangles_winding_witness :
    2 ≤ 2 ∧ 2 * 2 < 2147483648 ∧ ((3, 0, 1) : Nat × Nat × Nat) ∈ chunk3 (triangles_indices 2) ∧
      ∃ va vb vc, (triangles_vertices 2 [0, 1, 1 / 2, 1])[3]? = some va ∧
        (triangles_vertices 2 [0, 1, 1 / 2, 1])[0]? = some vb ∧
        (triangles_vertices 2 [0, 1, 1 / 2, 1])[1]? = some vc ∧
        (cross (vsub vb.position va.position) (vsub vc.position va.position)).2.1 = 1 :=
  ⟨by decide, by decide, by decide,
    triangles_winding 2 (by decide) (by decide) [0, 1, 1 / 2, 1] (3, 0, 1) (by decide)⟩

/-! ## Strip scheme: the candidate triangles in closed form -/

theorem storeInt_of_range {i : Int} (h1 : -2147483648 ≤ i) (h2 : i < 2147483648) :
    storeInt i = i := by
  unfold storeInt toInt32 toUInt32; omega

theorem cell_facts {N x : Nat} (hN : 2 ≤ N) (hNN : N * N < 2147483648) (hx : x < N) :
    (0 : Int) ≤ x * N ∧ (x : Int) * N + N ≤ N * N ∧ (x = 0 → (x : Int) * N = 0) ∧
      (1 ≤ x → (N : Int) ≤ x * N) ∧ (x + 1 < N → (x : Int) * N + 2 * N ≤ N * N) ∧
      (x + 1 = N → (x : Int) * N + N = N * N) ∧ (N : Int) * N ≤ 2147395600 ∧
      (N : Int) ≤ 46340 := by
  have hlt := lt_of_sq_lt hNN
  have hsq : N * N ≤ 46340 * 46340 := Nat.mul_le_mul (by omega) (by omega)
  have h1 : (x + 1) * N ≤ N * N := Nat.mul_le_mul_right N hx
  have e1 : (x + 1) * N = x * N + N := by ring
  refine ⟨by positivity, by exact_mod_cast (by omega : x * N + N ≤ N * N), ?_, ?_, ?_, ?_,
    by exact_mod_cast (by omega : N * N ≤ 2147395600),
    by exact_mod_cast (by omega : N ≤ 46340)⟩
  · intro h; subst h; simp
  · intro h
    have : 1 * N ≤ x * N := Nat.mul_le_mul_right N h
    exact_mod_cast (by omega : N ≤ x * N)
  · intro h
    have : (x + 2) * N ≤ N * N := Nat.mul_le_mul_right N h
    have e2 : (x + 2) * N = x * N + 2 * N := by ring
    exact_mod_cast (by omega : x * N + 2 * N ≤ N * N)
  · intro h
    have : (x + 1) * N = N * N := by rw [h]
    exact_mod_cast (by omega : x * N + N = N * N)

theorem neighbours_eq {N x z : Nat} (hN : 2 ≤ N) (hNN : N * N < 2147483648)
    (hx : x < N) (hz : z < N) :
    neighbours N x z =
      { current_row_start := (x : Int) * N
        next_row_start := (x : Int) * N + N
        next_next_row_start := (x : Int) * N + 2 * N
        prev_row_start := (x : Int) * N - N
        current_vertex := (x : Int) * N + z
        vertex_left_adjacent := (x : Int) * N + z - 1
        vertex_right_adjacent := (x : Int) * N + z + 1
        vertex_top_adjacent := (x : Int) * N + z + N
        vertex_top_left_adjacent := (x : Int) * N + z + N - 1
        vertex_top_right_adjacent := (x : Int) * N + z + N + 1
        vertex_bottom_adjacent := (x : Int) * N + z - N
        vertex_bottom_left_adjacent := (x : Int) * N + z - N - 1
        vertex_bottom_right_adjacent := (x : Int) * N + z - N + 1 } := by
  obtain ⟨f1, f2, _, _, _, _, f7, f8⟩ := cell_facts hN hNN hx
  have e1 : ((x : Int) + 1) * N = x * N + N := by ring
  have e2 : ((x : Int) + 2) * N = x * N + 2 * N := by ring
  have e3 : ((x : Int) - 1) * N = x * N - N := by ring
  have hc : storeInt ((x : Int) * N + z) = x * N + z := storeInt_of_range (by omega) (by omega)
  simp only [neighbours, e1, e2, e3, hc]
  rw [storeInt_of_range (i := (x : Int) * N) (by omega) (by omega),
    storeInt_of_range (i := (x : Int) * N + N) (by omega) (by omega),
    storeInt_of_range (i := (x : Int) * N + 2 * N) (by omega) (by omega),
    storeInt_of_range (i := (x : Int) * N - N) (by omega) (by omega),
    storeInt_of_range (i := (x : Int) * N + z + N) (by omega) (by omega),
    storeInt_of_range (i := (x : Int) * N + z + N - 1) (by omega) (by omega),
    storeInt_of_range (i := (x : Int) * N + z + N + 1) (by omega) (by omega),
    storeInt_of_range (i := (x : Int) * N + z - N) (by omega) (by omega),
    storeInt_of_range (i := (x : Int) * N + z - N - 1) (by omega) (by omega),
    storeInt_of_range (i := (x : Int) * N + z - N + 1) (by omega) (by omega)]


theorem lt_linear_iff {N : Nat} (hNN : N * N < 2147483648) {v : Int} (h0 : 0 ≤ v)
    (h1 : v < 4294967296) : lt_linear N v ↔ v < (N : Int) * N := by
  have : (N : Int) * N < 2147483648 := by exact_mod_cast hNN
  have : (0 : Int) ≤ (N : Int) * N := by positivity
  unfold lt_linear toUInt32
  omega

theorem asIndex_cell {N r c : Nat} {i : Int} (h : i = (c : Int) + (r : Int) * N)
    (hb : c + r * N < 4294967296) : asIndex i = vertex_index N (r, c) := by
  have e : i = ((c + r * N : Nat) : Int) := by rw [h]; push_cast; ring
  unfold asIndex toUInt32
  rw [e]
  show (((c + r * N : Nat) : Int) % 4294967296).toNat = c + r * N
  omega

theorem vertex_index_bound {N r c : Nat} (hNN : N * N < 2147483648) (hr : r ≤ N) (hc : c < N) :
    c + r * N < 4294967296 := by
  have := lt_of_sq_lt hNN
  have : r * N ≤ N * N := Nat.mul_le_mul_right N hr
  omega

theorem candidate_eq {g p : Prop} [Decidable g] [Decidable p] (hg : g ↔ p)
    {va vb vc : Int} {a b c : Nat}
    (h : p → asIndex va = a ∧ asIndex vb = b ∧ asIndex vc = c)
    (T : List (Nat × Nat × Nat)) :
    candidate g va vb vc (tri_state T) = tri_state (T ++ accept p (a, b, c)) := by
  unfold candidate accept
  by_cases hg' : p
  · obtain ⟨h1, h2, h3⟩ := h hg'
    rw [if_pos (hg.mpr hg'), if_pos hg']
    simp [tri_state, push_back, tri_list, h1, h2, h3]
  · rw [if_neg (fun hh => hg' (hg.mp hh)), if_neg hg']
    simp

theorem odd_row_candidates_eq {N x z : Nat} (hN : 2 ≤ N) (hNN : N * N < 2147483648)
    (hx : x < N) (hz : z < N) :
    odd_row_candidates N (neighbours N x z) = tri_state (odd_triangles N x z) := by
  obtain ⟨f1, f2, f3, f4, f5, f6, f7, f8⟩ := cell_facts hN hNN hx
  have hxN : x + 1 < N ∨ x + 1 = N := by omega
  have hx0 : x = 0 ∨ 1 ≤ x := by omega
  have lt1 := lt_linear_iff hNN (v := (x : Int) * N + z + N) (by omega) (by omega)
  have lt2 := lt_linear_iff hNN (v := (x : Int) * N + z + N + 1) (by omega) (by omega)
  have vb : ∀ {r c : Nat}, r ≤ N → c < N → c + r * N < 4294967296 :=
    fun hr hc => vertex_index_bound hNN hr hc
  have s0 : ({ normal_indices := [], num_triangles := 0 } : NormalState) = tri_state [] := rfl
  rw [neighbours_eq hN hNN hx hz]
  simp only [odd_row_candidates, s0, lt1, lt2]
  rw [candidate_eq (p := 1 ≤ z ∧ x + 1 < N)
      (a := vertex_index N (x, z)) (b := vertex_index N (x + 1, z))
      (c := vertex_index N (x, z - 1))
      (by omega)
      (fun h => by
        have hz1 : 1 ≤ z := by omega
        exact ⟨asIndex_cell (by ring) (vb (by omega) (by omega)),
          asIndex_cell (by push_cast; ring) (vb (by omega) (by omega)),
          asIndex_cell (by push_cast [Nat.cast_sub hz1]; ring) (vb (by omega) (by omega))⟩)]
  rw [candidate_eq (p := 1 ≤ x ∧ 1 ≤ z)
      (a := vertex_index N (x, z)) (b := vertex_index N (x, z - 1))
      (c := vertex_index N (x - 1, z))
      (by omega)
      (fun h => by
        have hx1 : 1 ≤ x := by omega
        have hz1 : 1 ≤ z := by omega
        exact ⟨asIndex_cell (by ring) (vb (by omega) (by omega)),
          asIndex_cell (by push_cast [Nat.cast_sub hz1]; ring) (vb (by omega) (by omega)),
          asIndex_cell (by push_cast [Nat.cast_sub hx1]; ring) (vb (by omega) (by omega))⟩)]
  rw [candidate_eq (p := 1 ≤ x ∧ z + 1 < N)
      (a := vertex_index N (x, z)) (b := vertex_index N (x - 1, z))
      (c := vertex_index N (x - 1, z + 1))
      (by omega)
      (fun h => by
        have hx1 : 1 ≤ x := by omega
        exact ⟨asIndex_cell (by ring) (vb (by omega) (by omega)),
          asIndex_cell (by push_cast [Nat.cast_sub hx1]; ring) (vb (by omega) (by omega)),
          asIndex_cell (by push_cast [Nat.cast_sub hx1]; ring) (vb (by omega) (by omega))⟩)]
  rw [candidate_eq (p := 1 ≤ x ∧ z + 1 < N)
      (a := vertex_index N (x, z)) (b := vertex_index N (x - 1, z + 1))
      (c := vertex_index N (x, z + 1))
      (by omega)
      (fun h => by
        have hx1 : 1 ≤ x := by omega
        exact ⟨asIndex_cell (by ring) (vb (by omega) (by omega)),
          asIndex_cell (by push_cast [Nat.cast_sub hx1]; ring) (vb (by omega) (by omega)),
          asIndex_cell (by push_cast; ring) (vb (by omega) (by omega))⟩)]
  rw [candidate_eq (p := z + 1 < N ∧ x + 1 < N)
      (a := vertex_index N (x, z)) (b := vertex_index N (x, z + 1))
      (c := vertex_index N (x + 1, z + 1))
      (by omega)
      (fun h => by
        exact ⟨asIndex_cell (by ring) (vb (by omega) (by omega)),
          asIndex_cell (by push_cast; ring) (vb (by omega) (by omega)),
          asIndex_cell (by push_cast; ring) (vb (by omega) (by omega))⟩)]
  rw [candidate_eq (p := x + 1 < N ∧ z + 1 < N)
      (a := vertex_index N (x, z)) (b := vertex_index N (x + 1, z + 1))
      (c := vertex_index N (x + 1, z))
      (by omega)
      (fun h => by
        exact ⟨asIndex_cell (by ring) (vb (by omega) (by omega)),
          asIndex_cell (by push_cast; ring) (vb (by omega) (by omega)),
          asIndex_cell (by push_cast; ring) (vb (by omega) (by omega))⟩)]
  rfl

theorem even_row_candidates_eq {N x z : Nat} (hN : 2 ≤ N) (hNN : N * N < 2147483648)
    (hx : x < N) (hz : z < N) :
    even_row_candidates N (neighbours N x z) = tri_state (even_triangles N x z) := by
  obtain ⟨f1, f2, f3, f4, f5, f6, f7, f8⟩ := cell_facts hN hNN hx
  have hxN : x + 1 < N ∨ x + 1 = N := by omega
  have hx0 : x = 0 ∨ 1 ≤ x := by omega
  have lt1 := lt_linear_iff hNN (v := (x : Int) * N + z + N) (by omega) (by omega)
  have lt2 := lt_linear_iff hNN (v := (x : Int) * N + z + N + 1) (by omega) (by omega)
  have vb : ∀ {r c : Nat}, r ≤ N → c < N → c + r * N < 4294967296 :=
    fun hr hc => vertex_index_bound hNN hr hc
  have s0 : ({ normal_indices := [], num_triangles := 0 } : NormalState) = tri_state [] := rfl
  rw [neighbours_eq hN hNN hx hz]
  simp only [even_row_candidates, s0, lt1, lt2]
  rw [candidate_eq (p := x + 1 < N ∧ 1 ≤ z)
      (a := vertex_index N (x, z)) (b := vertex_index N (x + 1, z))
      (c := vertex_index N (x + 1, z - 1))
      (by omega)
      (fun h => by
        have hz1 : 1 ≤ z := by omega
        exact ⟨asIndex_cell (by ring) (vb (by omega) (by omega)),
          asIndex_cell (by push_cast; ring) (vb (by omega) (by omega)),
          asIndex_cell (by push_cast [Nat.cast_sub hz1]; ring) (vb (by omega) (by omega))⟩)]
  rw [candidate_eq (p := 1 ≤ z)
      (a := vertex_index N (x, z)) (b := vertex_index N (x + 1, z - 1))
      (c := vertex_index N (x, z - 1))
      (by omega)
      (fun h => by
        have hz1 : 1 ≤ z := by omega
        exact ⟨asIndex_cell (by ring) (vb (by omega) (by omega)),
          asIndex_cell (by push_cast [Nat.cast_sub hz1]; ring) (vb (by omega) (by omega)),
          asIndex_cell (by push_cast [Nat.cast_sub hz1]; ring) (vb (by omega) (by omega))⟩)]
  rw [candidate_eq (p := 1 ≤ x ∧ 2 ≤ z)
      (a := vertex_index N (x, z)) (b := vertex_index N (x, z - 1))
      (c := vertex_index N (x - 1, z - 1))
      (by omega)
      (fun h => by
        have hx1 : 1 ≤ x := by omega
        have hz1 : 1 ≤ z := by omega
        exact ⟨asIndex_cell (by ring) (vb (by omega) (by omega)),
          asIndex_cell (by push_cast [Nat.cast_sub hz1]; ring) (vb (by omega) (by omega)),
          asIndex_cell (by push_cast [Nat.cast_sub hx1, Nat.cast_sub hz1]; ring) (vb (by omega) (by omega))⟩)]
  rw [candidate_eq (p := 1 ≤ x ∧ 2 ≤ z)
      (a := vertex_index N (x, z)) (b := vertex_index N (x - 1, z - 1))
      (c := vertex_index N (x - 1, z))
      (by omega)
      (fun h => by
        have hx1 : 1 ≤ x := by omega
        have hz1 : 1 ≤ z := by omega
        exact ⟨asIndex_cell (by ring) (vb (by omega) (by omega)),
          asIndex_cell (by push_cast [Nat.cast_sub hx1, Nat.cast_sub hz1]; ring) (vb (by omega) (by omega)),
          asIndex_cell (by push_cast [Nat.cast_sub hx1]; ring) (vb (by omega) (by omega))⟩)]
  rw [candidate_eq (p := z + 1 < N ∧ x + 1 < N)
      (a := vertex_index N (x, z)) (b := vertex_index N (x, z + 1))
      (c := vertex_index N (x + 1, z))
      (by omega)
      (fun h => by
        exact ⟨asIndex_cell (by ring) (vb (by omega) (by omega)),
          asIndex_cell (by push_cast; ring) (vb (by omega) (by omega)),
          asIndex_cell (by push_cast; ring) (vb (by omega) (by omega))⟩)]
  rw [candidate_eq (p := 1 ≤ x ∧ z + 1 < N)
      (a := vertex_index N (x, z)) (b := vertex_index N (x - 1, z))
      (c := vertex_index N (x, z + 1))
      (by omega)
      (fun h => by
        have hx1 : 1 ≤ x := by omega
        exact ⟨asIndex_cell (by ring) (vb (by omega) (by omega)),
          asIndex_cell (by push_cast [Nat.cast_sub hx1]; ring) (vb (by omega) (by omega)),
          asIndex_cell (by push_cast; ring) (vb (by omega) (by omega))⟩)]
  rfl


theorem strip_normal_candidates_eq {N x z : Nat} (hN : 2 ≤ N) (hNN : N * N < 2147483648)
    (hx : x < N) (hz : z < N) :
    strip_normal_candidates N x z = tri_state (cell_triangles N x z) := by
  unfold strip_normal_candidates cell_triangles
  split
  · exact odd_row_candidates_eq hN hNN hx hz
  · exact even_row_candidates_eq hN hNN hx hz

theorem length_accept (g : Prop) [Decidable g] (t : Nat × Nat × Nat) :
    (accept g t).length = if g then 1 else 0 := by
  unfold accept; split <;> rfl

theorem mem_accept {g : Prop} [Decidable g] {t u : Nat × Nat × Nat} :
    u ∈ accept g t ↔ g ∧ u = t := by
  unfold accept; split <;> simp [*]

theorem chunk3_flatMap_tri_list (T : List (Nat × Nat × Nat)) :
    chunk3 (T.flatMap tri_list) = T := by
  induction T with
  | nil => rfl
  | cons t T ih =>
    obtain ⟨a, b, c⟩ := t
    show chunk3 (a :: b :: c :: T.flatMap tri_list) = _
    rw [chunk3, ih]

theorem cell_triangles_count {N x z : Nat} (hN : 2 ≤ N) (hx : x < N) (hz : z < N) :
    1 ≤ (cell_triangles N x z).length ∧ (cell_triangles N x z).length ≤ 6 ∧
      ((x = 0 ∨ x = N - 1 ∨ z = 0 ∨ z = N - 1) → (cell_triangles N x z).length < 6) := by
  unfold cell_triangles
  split
  · simp only [odd_triangles, List.nil_append, List.length_append, length_accept]
    split_ifs <;> omega
  · simp only [even_triangles, List.nil_append, List.length_append, length_accept]
    split_ifs <;> omega


theorem strip_position_of_getElem? {N : Nat} {height_map : List ℚ} {r c : Nat} {v : Vertex}
    (hc : c < N) (h : (strip_vertices N height_map)[vertex_index N (r, c)]? = some v) :
    v.position = ((r : ℚ), 0, (c : ℚ)) := by
  have hlen : vertex_index N (r, c) < (strip_vertices N height_map).length := by
    by_contra hcon
    rw [List.getElem?_eq_none (by omega)] at h
    cases h
  rw [length_strip_vertices] at hlen
  have hr : r < N := by
    by_contra hcon
    have : N * N ≤ r * N := Nat.mul_le_mul_right N (by omega)
    unfold vertex_index at hlen
    simp only at hlen
    omega
  have e : vertex_index N (r, c) = r * N + c := by unfold vertex_index; simp only; omega
  rw [e, strip_vertices_getElem? N height_map hr hc] at h
  cases h
  rfl

theorem flat_cross {ra ca rb cb rc cc : ℚ} :
    cross (vsub (rb, 0, cb) (ra, 0, ca)) (vsub (rc, 0, cc) (ra, 0, ca)) =
      (0, (cb - ca) * (rc - ra) - (cc - ca) * (rb - ra), 0) := by
  simp only [cross, vsub]
  ext <;> simp


theorem candidate_cross {N x z : Nat} (hz : z < N) {height_map : List ℚ}
    {t : Nat × Nat × Nat} (ht : t ∈ cell_triangles N x z) {va vb vc : Vertex}
    (ha : (strip_vertices N height_map)[t.1]? = some va)
    (hb : (strip_vertices N height_map)[t.2.1]? = some vb)
    (hc : (strip_vertices N height_map)[t.2.2]? = some vc) :
    cross (vsub vb.position va.position) (vsub vc.position va.position) = (0, 1, 0) := by
  unfold cell_triangles at ht
  split at ht
  · simp only [odd_triangles, List.nil_append, List.mem_append, mem_accept] at ht
    rcases ht with ((((ht | ht) | ht) | ht) | ht) | ht
    · obtain ⟨g, rfl⟩ := ht
      rw [strip_position_of_getElem? (by omega) ha, strip_position_of_getElem? (by omega) hb,
        strip_position_of_getElem? (by omega) hc, flat_cross]
      push_cast [Nat.cast_sub (show 1 ≤ z by omega)]
      ext <;> simp
    · obtain ⟨g, rfl⟩ := ht
      rw [strip_position_of_getElem? (by omega) ha, strip_position_of_getElem? (by omega) hb,
        strip_position_of_getElem? (by omega) hc, flat_cross]
      push_cast [Nat.cast_sub (show 1 ≤ x by omega), Nat.cast_sub (show 1 ≤ z by omega)]
      ext <;> simp
    · obtain ⟨g, rfl⟩ := ht
      rw [strip_position_of_getElem? (by omega) ha, strip_position_of_getElem? (by omega) hb,
        strip_position_of_getElem? (by omega) hc, flat_cross]
      push_cast [Nat.cast_sub (show 1 ≤ x by omega)]
      ext <;> simp
    · obtain ⟨g, rfl⟩ := ht
      rw [strip_position_of_getElem? (by omega) ha, strip_position_of_getElem? (by omega) hb,
        strip_position_of_getElem? (by omega) hc, flat_cross]
      push_cast [Nat.cast_sub (show 1 ≤ x by omega)]
      ext <;> simp
    · obtain ⟨g, rfl⟩ := ht
      rw [strip_position_of_getElem? (by omega) ha, strip_position_of_getElem? (by omega) hb,
        strip_position_of_getElem? (by omega) hc, flat_cross]
      push_cast
      ext <;> simp
    · obtain ⟨g, rfl⟩ := ht
      rw [strip_position_of_getElem? (by omega) ha, strip_position_of_getElem? (by omega) hb,
        strip_position_of_getElem? (by omega) hc, flat_cross]
      push_cast
      ext <;> simp
  · simp only [even_triangles, List.nil_append, List.mem_append, mem_accept] at ht
    rcases ht with ((((ht | ht) | ht) | ht) | ht) | ht
    · obtain ⟨g, rfl⟩ := ht
      rw [strip_position_of_getElem? (by omega) ha, strip_position_of_getElem? (by omega) hb,
        strip_position_of_getElem? (by omega) hc, flat_cross]
      push_cast [Nat.cast_sub (show 1 ≤ z by omega)]
      ext <;> simp
    · obtain ⟨g, rfl⟩ := ht
      rw [strip_position_of_getElem? (by omega) ha, strip_position_of_getElem? (by omega) hb,
        strip_position_of_getElem? (by omega) hc, flat_cross]
      push_cast [Nat.cast_sub (show 1 ≤ z by omega)]
      ext <;> simp
    · obtain ⟨g, rfl⟩ := ht
      rw [strip_position_of_getElem? (by omega) ha, strip_position_of_getElem? (by omega) hb,
        strip_position_of_getElem? (by omega) hc, flat_cross]
      push_cast [Nat.cast_sub (show 1 ≤ x by omega), Nat.cast_sub (show 1 ≤ z by omega)]
      ext <;> simp
    · obtain ⟨g, rfl⟩ := ht
      rw [strip_position_of_getElem? (by omega) ha, strip_position_of_getElem? (by omega) hb,
        strip_position_of_getElem? (by omega) hc, flat_cross]
      push_cast [Nat.cast_sub (show 1 ≤ x by omega), Nat.cast_sub (show 1 ≤ z by omega)]
      ext <;> simp
    · obtain ⟨g, rfl⟩ := ht
      rw [strip_position_of_getElem? (by omega) ha, strip_position_of_getElem? (by omega) hb,
        strip_position_of_getElem? (by omega) hc, flat_cross]
      push_cast
      ext <;> simp
    · obtain ⟨g, rfl⟩ := ht
      rw [strip_position_of_getElem? (by omega) ha, strip_position_of_getElem? (by omega) hb,
        strip_position_of_getElem? (by omega) hc, flat_cross]
      push_cast [Nat.cast_sub (show 1 ≤ x by omega)]
      ext <;> simp


theorem length_tri_state_indices (T : List (Nat × Nat × Nat)) :
    (tri_state T).normal_indices.length = 3 * (tri_state T).num_triangles := by
  show (T.flatMap tri_list).length = 3 * T.length
  rw [length_flatMap_const tri_list T 3 (fun _ _ => rfl)]
  ring

/-! ## Results on the candidate triangles: count and winding -/

/-- C19: for every grid size `N ≥ 2` and every cell `(x, z)` with
`x, z < N`, the number `num_triangles` of accepted candidate triangles is at
least 1 and at most 6, `normal_indices` holds exactly `3 * num_triangles`
entries when `calculate_normal` is called, and `num_triangles < 6` for every
cell of the first or last row or of the first or last column. -/
theorem strip_candidate_count (N : Nat) (hN : 2 ≤ N) (hNN : N * N < 2147483648)
    (x z : Nat) (hx : x < N) (hz : z < N) :
    1 ≤ (strip_normal_candidates N x z).num_triangles ∧
      (strip_normal_candidates N x z).num_triangles ≤ 6 ∧
      (strip_normal_candidates N x z).normal_indices.length =
        3 * (strip_normal_candidates N x z).num_triangles ∧
      ((x = 0 ∨ x = N - 1 ∨ z = 0 ∨ z = N - 1) →
        (strip_normal_candidates N x z).num_triangles < 6) := by
  rw [strip_normal_candidates_eq hN hNN hx hz]
  obtain ⟨h1, h2, h3⟩ := cell_triangles_count hN hx hz
  exact ⟨h1, h2, length_tri_state_indices _, h3⟩

theorem strip_candidate_count_witness :
    2 ≤ 3 ∧ 3 * 3 < 2147483648 ∧ 0 < 3 ∧ 1 < 3 ∧
      1 ≤ (strip_normal_candidates 3 0 1).num_triangles ∧
      (strip_normal_candidates 3 0 1).num_triangles ≤ 6 ∧
      (strip_normal_candidates 3 0 1).normal_indices.length =
        3 * (strip_normal_candidates 3 0 1).num_triangles ∧
      ((0 = 0 ∨ 0 = 3 - 1 ∨ 1 = 0 ∨ 1 = 3 - 1) →
        (strip_normal_candidates 3 0 1).num_triangles < 6) :=
  ⟨by decide, by decide, by decide, by decide,
    strip_candidate_count 3 (by decide) (by decide) 0 1 (by decide) (by decide)⟩

/-- C18: for every grid size `N ≥ 2`, every cell `(x, z)` and every accepted
candidate triangle `(va, vb, vc)` of either row parity whose three indices
are inside the vertex list, the face normal
`cross(pos vb - pos va, pos vc - pos va)` over the positions `(x, 0, z)` of
the strip vertices is exactly `(0, 1, 0)`. -/
theorem strip_candidate_winding (N : Nat) (hN : 2 ≤ N) (hNN : N * N < 2147483648)
    (height_map : List ℚ) (x z : Nat) (hx : x < N) (hz : z < N) (t : Nat × Nat × Nat)
    (ht : t ∈ chunk3 (strip_normal_candidates N x z).normal_indices) (va vb vc : Vertex)
    (ha : (strip_vertices N height_map)[t.1]? = some va)
    (hb : (strip_vertices N height_map)[t.2.1]? = some vb)
    (hc : (strip_vertices N height_map)[t.2.2]? = some vc) :
    cross (vsub vb.position va.position) (vsub vc.position va.position) = (0, 1, 0) := by
  rw [strip_normal_candidates_eq hN hNN hx hz] at ht
  have ht2 : t ∈ cell_triangles N x z := by
    have e : (tri_state (cell_triangles N x z)).normal_indices =
        (cell_triangles N x z).flatMap tri_list := rfl
    rw [e, chunk3_flatMap_tri_list] at ht
    exact ht
  exact candidate_cross hz ht2 ha hb hc

theorem strip_candidate_winding_witness :
    2 ≤ 3 ∧ 3 * 3 < 2147483648 ∧ 1 < 3 ∧ 1 < 3 ∧
      ((4, 7, 3) : Nat × Nat × Nat) ∈ chunk3 (strip_normal_candidates 3 1 1).normal_indices ∧
      (strip_vertices 3 [])[4]? = some (strip_vertex 3 [] 1 1) ∧
      (strip_vertices 3 [])[7]? = some (strip_vertex 3 [] 2 1) ∧
      (strip_vertices 3 [])[3]? = some (strip_vertex 3 [] 1 0) ∧
      cross (vsub (strip_vertex 3 [] 2 1).position (strip_vertex 3 [] 1 1).position)
        (vsub (strip_vertex 3 [] 1 0).position (strip_vertex 3 [] 1 1).position) = (0, 1, 0) :=
  ⟨by decide, by decide, by decide, by decide, by decide,
    strip_vertices_getElem? 3 [] (x := 1) (z := 1) (by decide) (by decide),
    strip_vertices_getElem? 3 [] (x := 2) (z := 1) (by decide) (by decide),
    strip_vertices_getElem? 3 [] (x := 1) (z := 0) (by decide) (by decide),
    strip_candidate_winding 3 (by decide) (by decide) [] 1 1 (by decide) (by decide) (4, 7, 3)
      (by decide) _ _ _
      (strip_vertices_getElem? 3 [] (x := 1) (z := 1) (by decide) (by decide))
      (strip_vertices_getElem? 3 [] (x := 2) (z := 1) (by decide) (by decide))
      (strip_vertices_getElem? 3 [] (x := 1) (z := 0) (by decide) (by decide))⟩

/-- C12 fails on the code, by the defect of C1: for grid size 3 the normal
of the vertex 7, the cell `(2, 1)`, is computed by `calculate_normal` from
`normal_indices = [7, 9, 6, 7, 4, 8]`, and the read of
`terrain_attributes[9].position` is outside the 9 vertices, whatever the
height map is: the normal of that vertex is not defined. -/
theorem strip_normal_undefined (height_map : List ℚ) :
    (strip_vertices 3 height_map).length = 9 ∧
      (strip_normal_candidates 3 2 1).normal_indices = [7, 9, 6, 7, 4, 8] ∧
      calculate_normal (strip_vertices 3 height_map)
        (strip_normal_candidates 3 2 1).normal_indices
        (strip_normal_candidates 3 2 1).num_triangles = Except.error Fault.out_of_bounds :=
  ⟨length_strip_vertices 3 height_map, by decide, rfl⟩

/-! ## Discrete-triangle scheme: the normal statements of the second loop -/

theorem map_position_set_normal (L : List Vertex) (i : Nat) (n : NormalAttr) :
    (set_normal L i n).map Vertex.position = L.map Vertex.position := by
  unfold set_normal
  cases h : L[i]? with
  | none => rfl
  | some v =>
    show (L.set i _).map Vertex.position = _
    apply List.ext_getElem?
    intro j
    rw [List.getElem?_map, List.getElem?_map, List.getElem?_set]
    split
    · rename_i hij
      subst hij
      split
      · rw [h]; rfl
      · rename_i hlt
        rw [List.getElem?_eq_none (by omega)]
    · rfl

theorem mem_set_normal {L : List Vertex} {i : Nat} {n : NormalAttr} {v : Vertex}
    (hv : v ∈ set_normal L i n) : v ∈ L ∨ v.normal = n := by
  unfold set_normal at hv
  cases h : L[i]? with
  | none => rw [h] at hv; exact Or.inl hv
  | some w =>
    rw [h] at hv
    rcases List.mem_or_eq_of_mem_set hv with h1 | h1
    · exact Or.inl h1
    · right; rw [h1]

theorem set_normal_keeps {P : List Vec3} {L : List Vertex} (i : Nat) {n : NormalAttr}
    (hL : normals_invariant P L) (hn : written_normal n) :
    normals_invariant P (set_normal L i n) := by
  refine ⟨by rw [map_position_set_normal]; exact hL.1, fun v hv => ?_⟩
  rcases mem_set_normal hv with h | h
  · exact hL.2 v h
  · rw [h]; exact hn

theorem read_at_of_getElem? {α : Type} {v : List α} {i : Nat} {a : α} (h : v[i]? = some a) :
    read_at v i = Except.ok a := by
  unfold read_at
  rw [h]
  rfl

theorem triangles_normal_body_eq {N va : Nat} {L : List Vertex} {a b d e : Vertex}
    (ha : read_at L va = Except.ok a) (hb : read_at L (wrap (va + N + 1)) = Except.ok b)
    (hd : read_at L (wrap (va + N)) = Except.ok d) (he : read_at L (va + 1) = Except.ok e) :
    triangles_normal_body N (va, L) = Except.ok (va + 1,
      set_normal (set_normal (set_normal (set_normal (set_normal (set_normal L va
        (NormalAttr.normalized (cross (vsub b.position a.position) (vsub d.position a.position))))
        (wrap (va + N + 1))
        (NormalAttr.normalized (cross (vsub b.position a.position) (vsub d.position a.position))))
        (wrap (va + N))
        (NormalAttr.normalized (cross (vsub b.position a.position) (vsub d.position a.position))))
        (wrap (va + N + 1))
        (NormalAttr.normalized (cross (vsub a.position b.position) (vsub e.position b.position))))
        va
        (NormalAttr.normalized (cross (vsub a.position b.position) (vsub e.position b.position))))
        (va + 1)
        (NormalAttr.normalized (cross (vsub a.position b.position) (vsub e.position b.position))))
      := by
  unfold triangles_normal_body
  simp only [ha, hb, hd, he, ok_bind]
  rfl

theorem lookup_of_positions {N : Nat} (hNN : N * N < 2147483648) {height_map : List ℚ}
    {L : List Vertex}
    (hP : L.map Vertex.position = (triangles_vertices N height_map).map Vertex.position)
    {x z : Nat} (hx : x < N) (hz : z < N) :
    ∃ v, L[x * N + z]? = some v ∧ v.position.1 = (x : ℚ) ∧ v.position.2.2 = (z : ℚ) := by
  have h := congrArg (fun l => l[x * N + z]?) hP
  simp only [List.getElem?_map, triangles_vertices_getElem? hNN height_map hx hz] at h
  cases hL : L[x * N + z]? with
  | none => rw [hL] at h; cases h
  | some v =>
    rw [hL] at h
    simp only [Option.map_some', Option.some.injEq] at h
    exact ⟨v, rfl, by rw [h]; rfl, by rw [h]; rfl⟩

theorem triangles_normal_body_ok {N : Nat} (hN : 2 ≤ N) (hNN : N * N < 2147483648)
    (height_map : List ℚ) {va : Nat} {L : List Vertex} (hva : va + N + 1 < N * N)
    (hL : normals_invariant ((triangles_vertices N height_map).map Vertex.position) L) :
    ∃ s, triangles_normal_body N (va, L) = Except.ok s ∧ s.1 = va + 1 ∧
      normals_invariant ((triangles_vertices N height_map).map Vertex.position) s.2 := by
  have hc : va % N < N := Nat.mod_lt _ (by omega)
  have hdm : N * (va / N) + va % N = va := Nat.div_add_mod va N
  have hcomm : N * (va / N) = va / N * N := Nat.mul_comm _ _
  generalize hr : va / N = r at hdm hcomm
  generalize hcc : va % N = c at hdm hcomm hc
  have hr1 : r + 1 < N := by
    by_contra hcon
    have h1 : N * N ≤ (r + 1) * N := Nat.mul_le_mul_right N (by omega)
    have h2 : (r + 1) * N = r * N + N := by ring
    omega
  have e1 : (r + 1) * N = r * N + N := by ring
  have e2 : (r + 2) * N = r * N + 2 * N := by ring
  have w1 : wrap (va + N + 1) = va + N + 1 := wrap_of_lt (by omega)
  have w2 : wrap (va + N) = va + N := wrap_of_lt (by omega)
  obtain ⟨a, ha, ha1, ha2⟩ := lookup_of_positions hNN hL.1 (show r < N by omega) hc
  obtain ⟨d, hd, hd1, hd2⟩ := lookup_of_positions hNN hL.1 hr1 hc
  have ia : r * N + c = va := by omega
  have id : (r + 1) * N + c = va + N := by omega
  rw [ia] at ha
  rw [id] at hd
  by_cases hc1 : c + 1 < N
  · obtain ⟨b, hb, hb1, hb2⟩ := lookup_of_positions hNN hL.1 hr1 hc1
    obtain ⟨e, he, he1, he2⟩ := lookup_of_positions hNN hL.1 (show r < N by omega) hc1
    have ib : (r + 1) * N + (c + 1) = va + N + 1 := by omega
    have ie : r * N + (c + 1) = va + 1 := by omega
    rw [ib] at hb
    rw [ie] at he
    rw [triangles_normal_body_eq (read_at_of_getElem? ha)
      (by rw [w1]; exact read_at_of_getElem? hb) (by rw [w2]; exact read_at_of_getElem? hd)
      (read_at_of_getElem? he)]
    have n1 : written_normal (NormalAttr.normalized
        (cross (vsub b.position a.position) (vsub d.position a.position))) := by
      refine Or.inr ⟨_, rfl, ?_⟩
      simp only [cross, vsub, ha1, ha2, hb1, hb2, hd1, hd2]
      push_cast
      ring_nf
      norm_num
    have n2 : written_normal (NormalAttr.normalized
        (cross (vsub a.position b.position) (vsub e.position b.position))) := by
      refine Or.inr ⟨_, rfl, ?_⟩
      simp only [cross, vsub, ha1, ha2, hb1, hb2, he1, he2]
      push_cast
      ring_nf
      norm_num
    exact ⟨_, rfl, rfl, set_normal_keeps _ (set_normal_keeps _ (set_normal_keeps _
      (set_normal_keeps _ (set_normal_keeps _ (set_normal_keeps _ hL n1) n1) n1) n2) n2) n2⟩
  · have hcN : c + 1 = N := by omega
    have hr2 : r + 2 < N := by
      by_contra hcon
      have h1 : N * N ≤ (r + 2) * N := Nat.mul_le_mul_right N (by omega)
      omega
    obtain ⟨b, hb, hb1, hb2⟩ := lookup_of_positions hNN hL.1 hr2 (show 0 < N by omega)
    obtain ⟨e, he, he1, he2⟩ := lookup_of_positions hNN hL.1 hr1 (show 0 < N by omega)
    have ib : (r + 2) * N + 0 = va + N + 1 := by omega
    have ie : (r + 1) * N + 0 = va + 1 := by omega
    rw [ib] at hb
    rw [ie] at he
    rw [triangles_normal_body_eq (read_at_of_getElem? ha)
      (by rw [w1]; exact read_at_of_getElem? hb) (by rw [w2]; exact read_at_of_getElem? hd)
      (read_at_of_getElem? he)]
    have hcq : (c : ℚ) = (N : ℚ) - 1 := by
      have : ((c + 1 : Nat) : ℚ) = (N : ℚ) := by rw [hcN]
      push_cast at this
      linarith
    have hNq : (2 : ℚ) ≤ (N : ℚ) := by exact_mod_cast hN
    have n1 : written_normal (NormalAttr.normalized
        (cross (vsub b.position a.position) (vsub d.position a.position))) := by
      refine Or.inr ⟨_, rfl, ?_⟩
      simp only [cross, vsub, ha1, ha2, hb1, hb2, hd1, hd2, hcq]
      push_cast
      intro hzero
      ring_nf at hzero
      linarith
    have n2 : written_normal (NormalAttr.normalized
        (cross (vsub a.position b.position) (vsub e.position b.position))) := by
      refine Or.inr ⟨_, rfl, ?_⟩
      simp only [cross, vsub, ha1, ha2, hb1, hb2, he1, he2, hcq]
      push_cast
      intro hzero
      ring_nf at hzero
      linarith
    exact ⟨_, rfl, rfl, set_normal_keeps _ (set_normal_keeps _ (set_normal_keeps _
      (set_normal_keeps _ (set_normal_keeps _ (set_normal_keeps _ hL n1) n1) n1) n2) n2) n2⟩

theorem forUpM_succ {σ : Type} (k : Nat) (body : Nat → σ → Except Fault σ) (s : σ) :
    forUpM (k + 1) body s = (forUpM k body s >>= body k) := by
  unfold forUpM
  rw [List.range_succ, List.foldlM_append]
  simp

theorem forUpM_invariant {σ : Type} (body : Nat → σ → Except Fault σ) (I : Nat → σ → Prop)
    (k : Nat) (step : ∀ i s, i < k → I i s → ∃ s', body i s = Except.ok s' ∧ I (i + 1) s')
    (s : σ) (h0 : I 0 s) : ∃ s', forUpM k body s = Except.ok s' ∧ I k s' := by
  induction k with
  | zero => exact ⟨s, rfl, h0⟩
  | succ k ih =>
    obtain ⟨s1, h1, i1⟩ := ih (fun i t hi ht => step i t (by omega) ht)
    obtain ⟨s2, h2, i2⟩ := step k s1 (by omega) i1
    exact ⟨s2, by rw [forUpM_succ, h1, ok_bind, h2], i2⟩

theorem triangles_vertices_written (N : Nat) (hNN : N * N < 2147483648) (height_map : List ℚ) :
    normals_invariant ((triangles_vertices N height_map).map Vertex.position)
      (triangles_vertices N height_map) := by
  refine ⟨rfl, fun v hv => ?_⟩
  rw [triangles_vertices_eq hNN] at hv
  simp only [List.mem_flatMap, List.mem_map, List.mem_range] at hv
  obtain ⟨x, _, z, _, rfl⟩ := hv
  exact Or.inl rfl

/-! ## Results on the completeness of the candidate predicates -/

theorem interior_candidate_count {N x z : Nat} (hN : 2 ≤ N) (hNN : N * N < 2147483648)
    (hx1 : 1 ≤ x) (hx2 : x + 1 < N) (hz1 : 1 ≤ z) (hz2 : z + 1 < N) :
    (strip_normal_candidates N x z).num_triangles = if x % 2 = 0 ∧ z = 1 then 4 else 6 := by
  rw [strip_normal_candidates_eq hN hNN (by omega) (by omega)]
  show (cell_triangles N x z).length = _
  unfold cell_triangles
  split
  · simp only [odd_triangles, List.nil_append, List.length_append, length_accept]
    split_ifs <;> omega
  · simp only [even_triangles, List.nil_append, List.length_append, length_accept]
    split_ifs <;> omega

/-- C21 fails on the code: for grid size 4 the cell `(2, 1)` of an even row
is an interior cell, and the vertices `9 = (2, 1)`, `8 = (2, 0)`, `4 = (1, 0)`
and `5 = (1, 1)` of the candidates "left lower middle" `(9, 8, 4)` and "left
bottom" `(9, 4, 5)` are all inside the grid, but the test
`vertex_bottom_left_adjacent > prev_row_start` is `4 > 4`, so both are
rejected and the cell has 4 accepted candidates, not 6. -/
theorem even_row_candidates_incomplete :
    strip_normal_candidates 4 2 1 =
        { normal_indices := [9, 13, 12, 9, 12, 8, 9, 10, 13, 9, 5, 10], num_triangles := 4 } ∧
      (1 ≤ 2 ∧ 2 ≤ 4 - 2 ∧ 1 ≤ 1 ∧ 1 ≤ 4 - 2) ∧
      (vertex_index 4 (2, 1) = 9 ∧ vertex_index 4 (2, 0) = 8 ∧ vertex_index 4 (1, 0) = 4 ∧
        vertex_index 4 (1, 1) = 5) ∧
      (neighbours 4 2 1).vertex_bottom_left_adjacent = 4 ∧
      (neighbours 4 2 1).prev_row_start = 4 ∧
      ((9, 8, 4) : Nat × Nat × Nat) ∉ chunk3 (strip_normal_candidates 4 2 1).normal_indices ∧
      ((9, 4, 5) : Nat × Nat × Nat) ∉ chunk3 (strip_normal_candidates 4 2 1).normal_indices := by
  decide

/-! ## Discrete-triangle scheme: the vertices the second loop leaves unwritten -/

theorem getElem?_set_normal_ne {L : List Vertex} {i j : Nat} (n : NormalAttr) (h : i ≠ j) :
    (set_normal L i n)[j]? = L[j]? := by
  unfold set_normal
  cases L[i]? with
  | none => rfl
  | some v => exact List.getElem?_set_ne h

theorem read_at_cases {α : Type} (v : List α) (i : Nat) :
    read_at v i = Except.error Fault.out_of_range ∨ ∃ a, read_at v i = Except.ok a := by
  unfold read_at
  cases v[i]? with
  | none => exact Or.inl rfl
  | some a => exact Or.inr ⟨a, rfl⟩

theorem triangles_normal_body_frame {N va : Nat} {L : List Vertex} {s : Nat × List Vertex}
    (h : triangles_normal_body N (va, L) = Except.ok s) {j : Nat} (h1 : va ≠ j)
    (h2 : va + 1 ≠ j) (h3 : wrap (va + N) ≠ j) (h4 : wrap (va + N + 1) ≠ j) :
    s.2[j]? = L[j]? := by
  rcases read_at_cases L va with ha | ⟨a, ha⟩
  · have e : triangles_normal_body N (va, L) = Except.error Fault.out_of_range := by
      unfold triangles_normal_body
      simp only [ha, error_bind]
    rw [e] at h
    cases h
  rcases read_at_cases L (wrap (va + N + 1)) with hb | ⟨b, hb⟩
  · have e : triangles_normal_body N (va, L) = Except.error Fault.out_of_range := by
      unfold triangles_normal_body
      simp only [ha, hb, ok_bind, error_bind]
    rw [e] at h
    cases h
  rcases read_at_cases L (wrap (va + N)) with hd | ⟨d, hd⟩
  · have e : triangles_normal_body N (va, L) = Except.error Fault.out_of_range := by
      unfold triangles_normal_body
      simp only [ha, hb, hd, ok_bind, error_bind]
    rw [e] at h
    cases h
  rcases read_at_cases L (va + 1) with he | ⟨e, he⟩
  · have e : triangles_normal_body N (va, L) = Except.error Fault.out_of_range := by
      unfold triangles_normal_body
      simp only [ha, hb, hd, he, ok_bind, error_bind]
    rw [e] at h
    cases h
  rw [triangles_normal_body_eq ha hb hd he] at h
  cases h
  show (set_normal _ _ _)[j]? = _
  rw [getElem?_set_normal_ne _ h2, getElem?_set_normal_ne _ h1, getElem?_set_normal_ne _ h4,
    getElem?_set_normal_ne _ h3, getElem?_set_normal_ne _ h4, getElem?_set_normal_ne _ h1]

/-! ## Results on the lambda `curve_fit` -/

theorem curve_fit_lt {a b : ℚ} (h : a < b) : curve_fit a < curve_fit b := by
  have hpos : 0 < a ^ 2 + a * b + b ^ 2 - 15 / 100 * (a + b) + 15 / 100 := by
    nlinarith [sq_nonneg (a + b - 1 / 10), sq_nonneg (a - b)]
  have hd : curve_fit b - curve_fit a =
      (b - a) * (a ^ 2 + a * b + b ^ 2 - 15 / 100 * (a + b) + 15 / 100) := by
    unfold curve_fit
    ring
  have := mul_pos (sub_pos.mpr h) hpos
  rw [← hd] at this
  linarith

theorem curve_fit_zero : curve_fit 0 = 0 := by
  unfold curve_fit
  norm_num

theorem curve_fit_one : curve_fit 1 = 1 := by
  unfold curve_fit
  norm_num

theorem curve_fit_le {a b : ℚ} (h : a ≤ b) : curve_fit a ≤ curve_fit b := by
  rcases eq_or_lt_of_le h with rfl | h
  · exact le_refl _
  · exact (curve_fit_lt h).le

/-- C23: in exact arithmetic `curve_fit` is strictly increasing on all
heights, `curve_fit 0 = 0` and `curve_fit 1 = 1`, so it maps `[0, 1]` into
`[0, 1]`; and for a height map of `N * N` samples the elevations
`position.y` written by the vertex loop of the discrete-triangle scheme are
in the same strict order as the height samples of their cells. -/
theorem curve_fit_increasing :
    (∀ a b : ℚ, a < b → curve_fit a < curve_fit b) ∧ curve_fit 0 = 0 ∧ curve_fit 1 = 1 ∧
      (∀ h : ℚ, 0 ≤ h → h ≤ 1 → 0 ≤ curve_fit h ∧ curve_fit h ≤ 1) ∧
      ∀ (N : Nat) (height_map : List ℚ) (x z u w : Nat), N * N < 2147483648 →
        height_map.length = N * N → x < N → z < N → u < N → w < N →
        height_map.getD (x * N + z) 0 < height_map.getD (u * N + w) 0 →
        ∃ p q, (triangles_vertices N height_map)[x * N + z]? = some p ∧
          (triangles_vertices N height_map)[u * N + w]? = some q ∧
          p.position.2.1 < q.position.2.1 := by
  refine ⟨fun a b h => curve_fit_lt h, curve_fit_zero, curve_fit_one, fun h h0 h1 => ?_, ?_⟩
  · have l0 := curve_fit_le h0
    have l1 := curve_fit_le h1
    rw [curve_fit_zero] at l0
    rw [curve_fit_one] at l1
    exact ⟨l0, l1⟩
  · intro N height_map x z u w hNN _ hx hz hu hw hlt
    refine ⟨_, _, triangles_vertices_getElem? hNN height_map hx hz,
      triangles_vertices_getElem? hNN height_map hu hw, ?_⟩
    show curve_fit _ * height_scale < curve_fit _ * height_scale
    have hs : (0 : ℚ) < height_scale := by unfold height_scale; norm_num
    exact mul_lt_mul_of_pos_right (curve_fit_lt hlt) hs

theorem curve_fit_increasing_witness :
    ((1 : ℚ) / 4 < 1 / 2 ∧ curve_fit (1 / 4) < curve_fit (1 / 2)) ∧
      ((0 : ℚ) ≤ 1 / 2 ∧ (1 : ℚ) / 2 ≤ 1 ∧ 0 ≤ curve_fit (1 / 2) ∧ curve_fit (1 / 2) ≤ 1) ∧
      (2 * 2 < 2147483648 ∧ ([0, 1, 1 / 2, 1] : List ℚ).length = 2 * 2 ∧
        ([0, 1, 1 / 2, 1] : List ℚ).getD (1 * 2 + 0) 0 <
          ([0, 1, 1 / 2, 1] : List ℚ).getD (0 * 2 + 1) 0 ∧
        ∃ p q, (triangles_vertices 2 [0, 1, 1 / 2, 1])[1 * 2 + 0]? = some p ∧
          (triangles_vertices 2 [0, 1, 1 / 2, 1])[0 * 2 + 1]? = some q ∧
          p.position.2.1 < q.position.2.1) :=
  ⟨⟨by norm_num, curve_fit_increasing.1 (1 / 4) (1 / 2) (by norm_num)⟩,
    ⟨by norm_num, by norm_num, curve_fit_increasing.2.2.2.1 (1 / 2) (by norm_num) (by norm_num)⟩,
    ⟨by decide, rfl, by norm_num [List.getD],
      curve_fit_increasing.2.2.2.2 2 [0, 1, 1 / 2, 1] 1 0 0 1 (by decide) rfl (by decide)
        (by decide) (by decide) (by decide) (by norm_num [List.getD])⟩⟩

/-! ## Results on the colour classifier with `float` heights and `double` thresholds -/

theorem heights_binary64_near (i : Nat) (hi : i < 8) :
    |heights_binary64.getD i 0 - heights.getD i 0| ≤ 1 / 2 ^ 54 := by
  interval_cases i <;> norm_num [heights_binary64, heights, abs_le]

theorem float_grid {h : ℚ} (hf : is_float h) (hq : 1 / 4 ≤ h) :
    ∃ k : Int, h = (k : ℚ) / 2 ^ 25 := by
  obtain ⟨m, e, hm, _, _, rfl⟩ := hf
  have hpos : (0 : ℚ) < (2 : ℚ) ^ e := zpow_pos (by norm_num) e
  have hm24 : (m : ℚ) < 2 ^ 24 := by
    have : m < 2 ^ 24 := lt_of_le_of_lt (le_abs_self m) hm
    exact_mod_cast this
  have he : -25 ≤ e := by
    by_contra hcon
    have h1 : (2 : ℚ) ^ e ≤ (2 : ℚ) ^ (-26 : Int) :=
      zpow_le_zpow_right₀ (by norm_num) (by omega)
    have h2 : (2 : ℚ) ^ (-26 : Int) = 1 / 2 ^ 26 := by norm_num [zpow_neg]
    rw [h2] at h1
    have h3 : (m : ℚ) * (2 : ℚ) ^ e < 2 ^ 24 * (1 / 2 ^ 26) := by
      calc (m : ℚ) * (2 : ℚ) ^ e < 2 ^ 24 * (2 : ℚ) ^ e := by
            exact mul_lt_mul_of_pos_right hm24 hpos
        _ ≤ 2 ^ 24 * (1 / 2 ^ 26) := by
            exact mul_le_mul_of_nonneg_left h1 (by norm_num)
    norm_num at h3
    linarith
  obtain ⟨n, hn⟩ : ∃ n : Nat, e = (n : Int) - 25 := ⟨(e + 25).toNat, by omega⟩
  refine ⟨m * 2 ^ n, ?_⟩
  rw [hn, zpow_sub₀ (by norm_num), zpow_natCast]
  push_cast
  norm_num
  ring

theorem grid_le_iff {k F : Int} {t : ℚ} (h1 : (F : ℚ) ≤ t * 2 ^ 25) (h2 : t * 2 ^ 25 < F + 1) :
    ((k : ℚ) / 2 ^ 25 ≤ t) ↔ k ≤ F := by
  rw [div_le_iff₀ (by norm_num)]
  constructor
  · intro h
    have : (k : ℚ) < F + 1 := lt_of_le_of_lt h h2
    have : k < F + 1 := by exact_mod_cast this
    omega
  · intro h
    have : (k : ℚ) ≤ F := by exact_mod_cast h
    linarith

theorem float_le_threshold {h d t : ℚ} (F : Int) (hf : is_float h) (hd : 1 / 4 ≤ d)
    (ht : 1 / 4 ≤ t) (d1 : (F : ℚ) ≤ d * 2 ^ 25) (d2 : d * 2 ^ 25 < F + 1)
    (t1 : (F : ℚ) ≤ t * 2 ^ 25) (t2 : t * 2 ^ 25 < F + 1) : (h ≤ d) = (h ≤ t) := by
  apply propext
  by_cases hq : 1 / 4 ≤ h
  · obtain ⟨k, rfl⟩ := float_grid hf hq
    rw [grid_le_iff d1 d2, grid_le_iff t1 t2]
  · constructor <;> intro _ <;> linarith

theorem color_lookup_binary64_eq (color : Color) {h : ℚ} (hf : is_float h) :
    color_lookup_binary64 color h = color_lookup color h := by
  have e1 : (h ≤ 5404319552844595 / 2 ^ 54) = (h ≤ 3 / 10) :=
    float_le_threshold 10066329 hf (by norm_num) (by norm_num) (by norm_num) (by norm_num)
      (by norm_num) (by norm_num)
  have e2 : (h ≤ 3602879701896397 / 2 ^ 53) = (h ≤ 4 / 10) :=
    float_le_threshold 13421772 hf (by norm_num) (by norm_num) (by norm_num) (by norm_num)
      (by norm_num) (by norm_num)
  have e3 : (h ≤ 8106479329266893 / 2 ^ 54) = (h ≤ 45 / 100) :=
    float_le_threshold 15099494 hf (by norm_num) (by norm_num) (by norm_num) (by norm_num)
      (by norm_num) (by norm_num)
  have e4 : (h ≤ 2476979795053773 / 2 ^ 52) = (h ≤ 55 / 100) :=
    float_le_threshold 18454937 hf (by norm_num) (by norm_num) (by norm_num) (by norm_num)
      (by norm_num) (by norm_num)
  have e5 : (h ≤ 5404319552844595 / 2 ^ 53) = (h ≤ 6 / 10) :=
    float_le_threshold 20132659 hf (by norm_num) (by norm_num) (by norm_num) (by norm_num)
      (by norm_num) (by norm_num)
  have e6 : (h ≤ 3152519739159347 / 2 ^ 52) = (h ≤ 7 / 10) :=
    float_le_threshold 23488102 hf (by norm_num) (by norm_num) (by norm_num) (by norm_num)
      (by norm_num) (by norm_num)
  have e7 : (h ≤ 8106479329266893 / 2 ^ 53) = (h ≤ 9 / 10) :=
    float_le_threshold 30198988 hf (by norm_num) (by norm_num) (by norm_num) (by norm_num)
      (by norm_num) (by norm_num)
  simp only [color_lookup_binary64, color_lookup, colors, heights_binary64, heights,
    color_scan_binary64, color_scan, List.getD_cons_zero, List.getD_cons_succ,
    e1, e2, e3, e4, e5, e6, e7]

theorem not_float_ratio {p q : Int} (hq : 0 < q) (hge : (1 : ℚ) / 4 ≤ (p : ℚ) / q)
    (hnd : ¬ q ∣ p * 2 ^ 25) : ¬ is_float ((p : ℚ) / q) := by
  intro hf
  obtain ⟨k, hk⟩ := float_grid hf hge
  apply hnd
  refine ⟨k, ?_⟩
  have hq0 : (q : ℚ) ≠ 0 := by exact_mod_cast hq.ne.symm
  have h1 : (p : ℚ) * 2 ^ 25 = q * k := by
    field_simp at hk
    linarith
  exact_mod_cast h1

theorem not_float_three_tenths : ¬ is_float (3 / 10) := by
  have h := not_float_ratio (p := 3) (q := 10) (by norm_num) (by norm_num) (by decide)
  norm_num at h
  exact h

theorem float_threshold_eq_one {t : ℚ} (ht : t ∈ heights) (hf : is_float t) : t = 1 := by
  simp only [heights, List.mem_cons, List.mem_singleton, List.not_mem_nil, or_false] at ht
  rcases ht with rfl | rfl | rfl | rfl | rfl | rfl | rfl | rfl
  · exact absurd hf not_float_three_tenths
  · have h := not_float_ratio (p := 4) (q := 10) (by norm_num) (by norm_num) (by decide)
    norm_num at h
    norm_num at hf
    exact absurd hf h
  · have h := not_float_ratio (p := 45) (q := 100) (by norm_num) (by norm_num) (by decide)
    norm_num at h
    norm_num at hf
    exact absurd hf h
  · have h := not_float_ratio (p := 55) (q := 100) (by norm_num) (by norm_num) (by decide)
    norm_num at h
    norm_num at hf
    exact absurd hf h
  · have h := not_float_ratio (p := 6) (q := 10) (by norm_num) (by norm_num) (by decide)
    norm_num at h
    norm_num at hf
    exact absurd hf h
  · have h := not_float_ratio (p := 7) (q := 10) (by norm_num) (by norm_num) (by decide)
    norm_num at h
    norm_num at hf
    exact absurd hf h
  · have h := not_float_ratio (p := 9) (q := 10) (by norm_num) (by norm_num) (by decide)
    norm_num at h
    norm_num at hf
    exact absurd hf h
  · rfl

/-- The literal form of C8 fails on the code: the `double` threshold written
`0.3` is below `3 / 10`, and no `float` equals `3 / 10`; the `float` nearest
to `0.3` is `5033165 / 2 ^ 24`, above the threshold. Both that height and the
exact height `3 / 10` are given the shallow-water colour `(0.13, 0.30, 0.76)`
by the scan of the code, not the deep-water colour. -/
theorem color_boundary_counterexample :
    heights_binary64.getD 0 0 < 3 / 10 ∧
      ¬ is_float (3 / 10) ∧ is_float (5033165 / 2 ^ 24) ∧
      ((5033164 : ℚ) / 2 ^ 24 < 3 / 10 ∧ (3 : ℚ) / 10 < 5033165 / 2 ^ 24 ∧
        (5033165 : ℚ) / 2 ^ 24 - 3 / 10 < 3 / 10 - 5033164 / 2 ^ 24) ∧
      color_lookup_binary64 white (5033165 / 2 ^ 24) = (13 / 100, 30 / 100, 76 / 100) ∧
      color_lookup_binary64 white (3 / 10) = (13 / 100, 30 / 100, 76 / 100) ∧
      color_lookup_binary64 white (3 / 10) ≠ (12 / 100, 29 / 100, 72 / 100) := by
  refine ⟨by norm_num [heights_binary64], not_float_three_tenths,
    ⟨5033165, -24, by norm_num, by norm_num, by norm_num, by norm_num [zpow_neg]⟩,
    ⟨by norm_num, by norm_num, by norm_num⟩, ?_, ?_, ?_⟩
  · simp only [color_lookup_binary64, colors, heights_binary64, color_scan_binary64,
      List.getD_cons_zero, List.getD_cons_succ]
    norm_num
  · simp only [color_lookup_binary64, colors, heights_binary64, color_scan_binary64,
      List.getD_cons_zero, List.getD_cons_succ]
    norm_num
  · simp only [color_lookup_binary64, colors, heights_binary64, color_scan_binary64,
      List.getD_cons_zero, List.getD_cons_succ]
    norm_num

/-- C8, amended: for every `float` height `h` the colour chosen by the
threshold scan of the code (`double` thresholds, `color` started as white) is
the colour paired with the first threshold `t` of the decimal list
`[0.3, 0.4, 0.45, 0.55, 0.6, 0.7, 0.9, 1.0]` with `h ≤ t`, and the default
white when `h > 1`; of these thresholds only `1` is a `float`, so `h = t`
occurs only there; the `float` heights `0`, `0.3f = 5033165 / 2 ^ 24`,
`0.31f = 5200937 / 2 ^ 24`, `1` and `1.5` give deep water, shallow water,
shallow water, snow and the default white. -/
theorem color_classifier_float :
    (∀ h : ℚ, is_float h → color_lookup_binary64 white h = classify_spec h) ∧
      (∀ h : ℚ, is_float h → 1 < h → color_lookup_binary64 white h = (1, 1, 1)) ∧
      heights = [3 / 10, 4 / 10, 45 / 100, 55 / 100, 6 / 10, 7 / 10, 9 / 10, 1] ∧
      (∀ t ∈ heights, is_float t → t = 1) ∧
      color_lookup_binary64 white 0 = (12 / 100, 29 / 100, 72 / 100) ∧
      color_lookup_binary64 white (5033165 / 2 ^ 24) = (13 / 100, 30 / 100, 76 / 100) ∧
      color_lookup_binary64 white (5200937 / 2 ^ 24) = (13 / 100, 30 / 100, 76 / 100) ∧
      color_lookup_binary64 white 1 = (1, 1, 1) ∧
      color_lookup_binary64 white (3 / 2) = (1, 1, 1) := by
  refine ⟨fun h hf => ?_, fun h hf h1 => ?_, rfl, fun t ht hf => float_threshold_eq_one ht hf,
    ?_⟩
  · rw [color_lookup_binary64_eq white hf, color_lookup_eq_spec]
  · rw [color_lookup_binary64_eq white hf]
    exact color_lookup_above_one h h1
  · simp only [color_lookup_binary64, colors, heights_binary64, color_scan_binary64,
      List.getD_cons_zero, List.getD_cons_succ, white]
    norm_num

theorem color_classifier_float_witness :
    is_float (5033165 / 2 ^ 24) ∧
      color_lookup_binary64 white (5033165 / 2 ^ 24) = classify_spec (5033165 / 2 ^ 24) ∧
      is_float (3 / 2) ∧ (1 : ℚ) < 3 / 2 ∧ color_lookup_binary64 white (3 / 2) = (1, 1, 1) :=
  ⟨⟨5033165, -24, by norm_num, by norm_num, by norm_num, by norm_num [zpow_neg]⟩,
    color_classifier_float.1 (5033165 / 2 ^ 24)
      ⟨5033165, -24, by norm_num, by norm_num, by norm_num, by norm_num [zpow_neg]⟩,
    ⟨3, -1, by norm_num, by norm_num, by norm_num, by norm_num [zpow_neg]⟩,
    by norm_num,
    color_classifier_float.2.1 (3 / 2)
      ⟨3, -1, by norm_num, by norm_num, by norm_num, by norm_num [zpow_neg]⟩ (by norm_num)⟩

/-! ## Results on the colour of the second triangle of a cell -/

theorem getElem?_set_color_ne {L : List Vertex} {i j : Nat} (color : Color) (h : i ≠ j) :
    (set_color L i color)[j]? = L[j]? := by
  unfold set_color
  cases L[i]? with
  | none => rfl
  | some v => exact List.getElem?_set_ne h

theorem read_cases {α : Type} (v : List α) (i : Nat) :
    read v i = Except.error Fault.out_of_bounds ∨ ∃ a, read v i = Except.ok a := by
  unfold read
  cases v[i]? with
  | none => exact Or.inl rfl
  | some a => exact Or.inr ⟨a, rfl⟩

theorem read_of_getElem? {α : Type} {v : List α} {i : Nat} {a : α} (h : v[i]? = some a) :
    read v i = Except.ok a := by
  unfold read
  rw [h]
  rfl

theorem triangles_pass_body_eq {N va index : Nat} {height_map : List ℚ} {L : List Vertex}
    {s1 : Nat × List Vertex} {u b c d e : ℚ}
    (hn : triangles_normal_body N (va, L) = Except.ok s1)
    (hu : read height_map index = Except.ok u)
    (hb : read height_map (wrap (va + N + 1)) = Except.ok b)
    (hc : read height_map (wrap (va + N)) = Except.ok c)
    (hd : read height_map va = Except.ok d)
    (he : read height_map (va + 1) = Except.ok e) :
    triangles_pass_body N height_map index (va, L) = Except.ok (s1.1,
      set_color (set_color (set_color (set_color (set_color (set_color s1.2 va
        (triangle_colors u b c b d e).1) (wrap (va + N + 1)) (triangle_colors u b c b d e).1)
        (wrap (va + N)) (triangle_colors u b c b d e).1)
        (wrap (va + N + 1)) (triangle_colors u b c b d e).2)
        va (triangle_colors u b c b d e).2)
        (va + 1) (triangle_colors u b c b d e).2) := by
  unfold triangles_pass_body
  simp only [hn, hu, hb, hc, hd, he, ok_bind]
  rfl

theorem triangles_pass_body_frame {N va index : Nat} {height_map : List ℚ} {L : List Vertex}
    {s : Nat × List Vertex}
    (h : triangles_pass_body N height_map index (va, L) = Except.ok s) {j : Nat} (h1 : va ≠ j)
    (h2 : va + 1 ≠ j) (h3 : wrap (va + N) ≠ j) (h4 : wrap (va + N + 1) ≠ j) :
    s.2[j]? = L[j]? := by
  cases hn : triangles_normal_body N (va, L) with
  | error f =>
    have e : triangles_pass_body N height_map index (va, L) = Except.error f := by
      unfold triangles_pass_body
      simp only [hn, error_bind]
    rw [e] at h
    cases h
  | ok s1 =>
    rcases read_cases height_map index with hu | ⟨u, hu⟩
    · have e : triangles_pass_body N height_map index (va, L) =
          Except.error Fault.out_of_bounds := by
        unfold triangles_pass_body
        simp only [hn, hu, ok_bind, error_bind]
      rw [e] at h
      cases h
    rcases read_cases height_map (wrap (va + N + 1)) with hb | ⟨b, hb⟩
    · have e : triangles_pass_body N height_map index (va, L) =
          Except.error Fault.out_of_bounds := by
        unfold triangles_pass_body
        simp only [hn, hu, hb, ok_bind, error_bind]
      rw [e] at h
      cases h
    rcases read_cases height_map (wrap (va + N)) with hc | ⟨c, hc⟩
    · have e : triangles_pass_body N height_map index (va, L) =
          Except.error Fault.out_of_bounds := by
        unfold triangles_pass_body
        simp only [hn, hu, hb, hc, ok_bind, error_bind]
      rw [e] at h
      cases h
    rcases read_cases height_map va with hd | ⟨d, hd⟩
    · have e : triangles_pass_body N height_map index (va, L) =
          Except.error Fault.out_of_bounds := by
        unfold triangles_pass_body
        simp only [hn, hu, hb, hc, hd, ok_bind, error_bind]
      rw [e] at h
      cases h
    rcases read_cases height_map (va + 1) with he | ⟨e, he⟩
    · have e : triangles_pass_body N height_map index (va, L) =
          Except.error Fault.out_of_bounds := by
        unfold triangles_pass_body
        simp only [hn, hu, hb, hc, hd, he, ok_bind, error_bind]
      rw [e] at h
      cases h
    rw [triangles_pass_body_eq hn hu hb hc hd he] at h
    cases h
    show (set_color _ _ _)[j]? = _
    rw [getElem?_set_color_ne _ h2, getElem?_set_color_ne _ h1, getElem?_set_color_ne _ h4,
      getElem?_set_color_ne _ h3, getElem?_set_color_ne _ h4, getElem?_set_color_ne _ h1]
    exact triangles_normal_body_frame hn h1 h2 h3 h4

/-- C22 fails on the code, by the defect of C15: for grid size 3 the second
loop runs with `va_index = 0, 1, 2, 3`, so the vertex index 8, the cell
`(2, 2)`, which the index buffer uses, is a vertex of none of the triangles
the loop processes; an iteration of the loop with one of these values of
`va_index` leaves `terrain_attributes[8]`, its normal and its colour, as it
was. -/
theorem triangles_last_vertex_untouched :
    8 < 3 * 3 ∧
      (∀ t ∈ (triangles_pass_visits 3).flatMap (fun v => pass_triangles 3 v.2.2),
        8 ∉ tri_list t) ∧
      (∃ t ∈ chunk3 (triangles_indices 3), 8 ∈ tri_list t) ∧
      ∀ (height_map : List ℚ) (index va_index : Nat) (terrain_attributes : List Vertex)
        (s : Nat × List Vertex), va_index < 4 →
        triangles_pass_body 3 height_map index (va_index, terrain_attributes) = Except.ok s →
        s.2[8]? = terrain_attributes[8]? := by
  refine ⟨by decide, by decide, by decide, fun height_map index va L s hva h => ?_⟩
  have w1 : wrap (va + 3) = va + 3 := wrap_of_lt (by omega)
  have w2 : wrap (va + 3 + 1) = va + 3 + 1 := wrap_of_lt (by omega)
  exact triangles_pass_body_frame h (by omega) (by omega) (by rw [w1]; omega)
    (by rw [w2]; omega)

theorem triangles_last_vertex_untouched_witness :
    (0 : Nat) < 4 ∧
      ∃ s, triangles_pass_body 3 [0, 0, 0, 0, 0, 0, 0, 0, 0] 0
          (0, triangles_vertices 3 [0, 0, 0, 0, 0, 0, 0, 0, 0]) = Except.ok s ∧
        s.2[8]? = (triangles_vertices 3 [0, 0, 0, 0, 0, 0, 0, 0, 0])[8]? := by
  have hva : 0 + 3 + 1 < 3 * 3 := by decide
  obtain ⟨s1, hs1, _⟩ := triangles_normal_body_ok (by decide) (by decide)
    [0, 0, 0, 0, 0, 0, 0, 0, 0] hva
    (triangles_vertices_written 3 (by decide) [0, 0, 0, 0, 0, 0, 0, 0, 0])
  have hb : triangles_pass_body 3 [0, 0, 0, 0, 0, 0, 0, 0, 0] 0
      (0, triangles_vertices 3 [0, 0, 0, 0, 0, 0, 0, 0, 0]) = Except.ok _ :=
    triangles_pass_body_eq hs1 rfl rfl rfl rfl rfl
  exact ⟨by decide, _, hb,
    triangles_last_vertex_untouched.2.2.2 _ _ _ _ _ (by decide) hb⟩

end Terrain
